import Mathlib

/-!
Verification of the scoring, ranking and winner-finalization engine of the
mound_hounds_pickem application.

Shallow embedding conventions:
* driver/race identifiers are naturals, participant (user) identifiers are strings;
* result points are integers, speeds (tiebreak guesses and official averages) are rationals;
* team names are modelled as elements of a linearly ordered set (naturals): the
  source compares names with `localeCompare`, whose concrete order is locale
  dependent, so only its total-order interface is modelled;
* the JavaScript stable `Array.prototype.sort` with a numeric comparator `cmp`
  is modelled as a stable insertion sort with the relation `cmp a b ≠ .gt`;
* JavaScript `Map` objects are modelled as finite-support functions built by
  successive updates (later `set` wins, as in the source);
* `Number.POSITIVE_INFINITY` sort keys are modelled with `WithTop ℚ`.
-/

namespace Pickem

/-- Sign of a JS numeric comparator on a linear order, as an `Ordering`. -/
def cmpOf {α : Type} [LinearOrder α] (a b : α) : Ordering :=
  if a < b then .lt else if a = b then .eq else .gt

theorem cmpOf_eq_lt {α : Type} [LinearOrder α] {a b : α} : cmpOf a b = .lt ↔ a < b := by
  unfold cmpOf
  split
  · simp only [true_iff]; assumption
  · split <;> simp_all

theorem cmpOf_eq_eq {α : Type} [LinearOrder α] {a b : α} : cmpOf a b = .eq ↔ a = b := by
  unfold cmpOf
  split
  · constructor
    · intro h; cases h
    · intro h; subst h; simp_all
  · split <;> simp_all

theorem cmpOf_eq_gt {α : Type} [LinearOrder α] {a b : α} : cmpOf a b = .gt ↔ b < a := by
  unfold cmpOf
  split
  · constructor
    · intro h; cases h
    · intro h; exact absurd (lt_trans h (by assumption)) (lt_irrefl b)
  · split
    · constructor
      · intro h; cases h
      · intro h; subst_vars; exact absurd h (lt_irrefl b)
    · simp only [true_iff]
      rcases lt_trichotomy a b with h | h | h
      · exact absurd h (by assumption)
      · exact absurd h (by assumption)
      · exact h

/-- Team-name comparison: `localeCompare`, abstracted to the order on names. -/
def localeCompare (a b : ℕ) : Ordering := cmpOf a b

/-- Stable sort by a JS comparator: rows `a` stay before `b` when `cmp a b ≤ 0`. -/
def sortByCompare {α : Type} (cmp : α → α → Ordering) (l : List α) : List α :=
  List.insertionSort (fun a b => cmp a b ≠ .gt) l

theorem orderedInsert_congr {α : Type} {r s : α → α → Prop}
    [DecidableRel r] [DecidableRel s] (h : ∀ a b, r a b ↔ s a b) (a : α) :
    ∀ l : List α, List.orderedInsert r a l = List.orderedInsert s a l := by
  intro l
  induction l with
  | nil => rfl
  | cons b t ih =>
      simp only [List.orderedInsert]
      by_cases hr : r a b
      · rw [if_pos hr, if_pos ((h a b).1 hr)]
      · rw [if_neg hr, if_neg (fun hs => hr ((h a b).2 hs)), ih]

theorem insertionSort_congr {α : Type} {r s : α → α → Prop}
    [DecidableRel r] [DecidableRel s] (h : ∀ a b, r a b ↔ s a b) :
    ∀ l : List α, List.insertionSort r l = List.insertionSort s l := by
  intro l
  induction l with
  | nil => rfl
  | cons a t ih =>
      simp only [List.insertionSort]
      rw [ih, orderedInsert_congr h]

/-! ## Tiebreak Resolver (weekly-ranking module) -/

/-- Embedding of `speedDeltaForSort`: absolute guess-to-official distance, with
`Number.POSITIVE_INFINITY` (modelled as `⊤`) when either value is missing. -/
def speedDeltaForSort (guess official : Option ℚ) : WithTop ℚ :=
  match guess, official with
  | some g, some o => ((|g - o| : ℚ) : WithTop ℚ)
  | _, _ => ⊤

/-- Embedding of `compareByPointsThenTeamName`: points descending, then name. -/
def compareByPointsThenTeamName {α : Type} (pts : α → ℤ) (nm : α → ℕ) (a b : α) : Ordering :=
  match cmpOf (pts b) (pts a) with
  | .eq => localeCompare (nm a) (nm b)
  | o => o

/-- Embedding of `compareTopTieByOfficialSpeedThenTeamName`: speed delta
ascending, then name. -/
def compareTopTieByOfficialSpeedThenTeamName {α : Type} (spd : α → Option ℚ) (nm : α → ℕ)
    (official : Option ℚ) (a b : α) : Ordering :=
  match cmpOf (speedDeltaForSort (spd a) official) (speedDeltaForSort (spd b) official) with
  | .eq => localeCompare (nm a) (nm b)
  | o => o

/-- Embedding of the `reduce(Math.max, -∞)` fold computing the top points value
(`none` plays the role of the `-∞` start value). -/
def reduceMaxPoints {α : Type} (pts : α → ℤ) (rows : List α) : Option ℤ :=
  rows.foldl (fun m r => match m with
    | none => some (pts r)
    | some x => some (max x (pts r))) none

/-- Embedding of `buildOrderedWeeklyRows`: top-points rows first (sorted by the
speed tiebreak only when there are at least two), then the rest sorted by
points descending and name ascending. -/
def buildOrderedWeeklyRows {α : Type} (pts : α → ℤ) (spd : α → Option ℚ) (nm : α → ℕ)
    (rows : List α) (official : Option ℚ) : List α :=
  if rows.isEmpty then [] else
  let topPoints := reduceMaxPoints pts rows
  let topRows := rows.filter (fun r => decide (some (pts r) = topPoints))
  let remainingRows := rows.filter (fun r => decide (¬ some (pts r) = topPoints))
  let orderedTopRows :=
    if 1 < topRows.length then
      sortByCompare (compareTopTieByOfficialSpeedThenTeamName spd nm official) topRows
    else topRows
  let orderedRemainingRows := sortByCompare (compareByPointsThenTeamName pts nm) remainingRows
  orderedTopRows ++ orderedRemainingRows

/-! Specification-side definitions for the Tiebreak Resolver, written from the
spec's words (section 4.1) to be compared with the source embedding. -/

/-- Spec 4.1 `distance`: `null` if either input is absent, else the absolute
difference. -/
def distance (guess target : Option ℚ) : Option ℚ :=
  match guess, target with
  | some g, some t => some |g - t|
  | _, _ => none

/-- Spec 4.1 sort key: the distance, treating `null` as `+infinity`. -/
def distanceKey (guess target : Option ℚ) : WithTop ℚ :=
  match distance guess target with
  | some d => (d : WithTop ℚ)
  | none => ⊤

/-- Spec 4.1 leader order: distance to target ascending, remaining ties broken
by name ascending. -/
def leaderLe {α : Type} (spd : α → Option ℚ) (nm : α → ℕ) (official : Option ℚ)
    (a b : α) : Prop :=
  distanceKey (spd a) official < distanceKey (spd b) official ∨
    (distanceKey (spd a) official = distanceKey (spd b) official ∧ nm a ≤ nm b)

instance {α : Type} (spd : α → Option ℚ) (nm : α → ℕ) (official : Option ℚ) :
    DecidableRel (leaderLe spd nm official) := fun _ _ => by
  unfold leaderLe; infer_instance

/-- Spec 4.1 order for the non-leading rows: points descending, then name
ascending. -/
def restLe {α : Type} (pts : α → ℤ) (nm : α → ℕ) (a b : α) : Prop :=
  pts b < pts a ∨ (pts a = pts b ∧ nm a ≤ nm b)

instance {α : Type} (pts : α → ℤ) (nm : α → ℕ) : DecidableRel (restLe pts nm) := fun _ _ => by
  unfold restLe; infer_instance

/-- Spec 4.1 `orderRows`: partition at the maximum points value, sort the
leaders by the speed tiebreak when there are two or more, sort the rest by
points then name, and concatenate. -/
def orderRowsSpec {α : Type} (pts : α → ℤ) (spd : α → Option ℚ) (nm : α → ℕ)
    (rows : List α) (official : Option ℚ) : List α :=
  match rows with
  | [] => []
  | _ :: _ =>
    let topPoints := (rows.map pts).max?
    let leaders := rows.filter (fun r => decide (some (pts r) = topPoints))
    let rest := rows.filter (fun r => decide (¬ some (pts r) = topPoints))
    (if 1 < leaders.length then List.insertionSort (leaderLe spd nm official) leaders
     else leaders) ++ List.insertionSort (restLe pts nm) rest

theorem reduceMaxPoints_aux {α : Type} (pts : α → ℤ) :
    ∀ (l : List α) (a : ℤ),
      l.foldl (fun m r => match m with
        | none => some (pts r)
        | some x => some (max x (pts r))) (some a) = some (List.foldl max a (l.map pts)) := by
  intro l
  induction l with
  | nil => intro a; rfl
  | cons x t ih => intro a; simpa using ih (max a (pts x))

theorem reduceMaxPoints_eq_max? {α : Type} (pts : α → ℤ) (rows : List α) :
    reduceMaxPoints pts rows = (rows.map pts).max? := by
  cases rows with
  | nil => rfl
  | cons x t =>
      unfold reduceMaxPoints
      simp only [List.foldl_cons]
      rw [reduceMaxPoints_aux]
      rfl

theorem speedDeltaForSort_eq_distanceKey (guess official : Option ℚ) :
    speedDeltaForSort guess official = distanceKey guess official := by
  cases guess <;> cases official <;> rfl

theorem localeCompare_ne_gt {a b : ℕ} : (¬ localeCompare a b = .gt) ↔ a ≤ b := by
  unfold localeCompare
  constructor
  · intro h
    by_contra hlt
    exact h (cmpOf_eq_gt.2 (lt_of_not_le hlt))
  · intro h hgt
    exact absurd (cmpOf_eq_gt.1 hgt) (not_lt_of_le h)

theorem compareTopTie_ne_gt_iff_leaderLe {α : Type} (spd : α → Option ℚ) (nm : α → ℕ)
    (official : Option ℚ) (a b : α) :
    (¬ compareTopTieByOfficialSpeedThenTeamName spd nm official a b = .gt) ↔
      leaderLe spd nm official a b := by
  unfold compareTopTieByOfficialSpeedThenTeamName leaderLe
  rw [speedDeltaForSort_eq_distanceKey, speedDeltaForSort_eq_distanceKey]
  rcases h : cmpOf (distanceKey (spd a) official) (distanceKey (spd b) official) with _ | _ | _
  · simp only [reduceCtorEq, not_false_iff, true_iff]
    exact Or.inl (cmpOf_eq_lt.1 h)
  · have heq := cmpOf_eq_eq.1 h
    simp only [localeCompare_ne_gt]
    constructor
    · intro hle; exact Or.inr ⟨heq, hle⟩
    · rintro (hlt | ⟨_, hle⟩)
      · rw [heq] at hlt; exact absurd hlt (lt_irrefl _)
      · exact hle
  · have hgt := cmpOf_eq_gt.1 h
    apply iff_of_false
    · intro hne; exact hne rfl
    · rintro (hlt | ⟨heq, _⟩)
      · exact absurd (lt_trans hlt hgt) (lt_irrefl _)
      · rw [heq] at hgt; exact absurd hgt (lt_irrefl _)

theorem comparePoints_ne_gt_iff_restLe {α : Type} (pts : α → ℤ) (nm : α → ℕ) (a b : α) :
    (¬ compareByPointsThenTeamName pts nm a b = .gt) ↔ restLe pts nm a b := by
  unfold compareByPointsThenTeamName restLe
  rcases h : cmpOf (pts b) (pts a) with _ | _ | _
  · simp only [reduceCtorEq, not_false_iff, true_iff]
    exact Or.inl (cmpOf_eq_lt.1 h)
  · have heq := cmpOf_eq_eq.1 h
    simp only [localeCompare_ne_gt]
    constructor
    · intro hle; exact Or.inr ⟨heq.symm, hle⟩
    · rintro (hlt | ⟨_, hle⟩)
      · rw [heq] at hlt; exact absurd hlt (lt_irrefl _)
      · exact hle
  · have hgt := cmpOf_eq_gt.1 h
    apply iff_of_false
    · intro hne; exact hne rfl
    · rintro (hlt | ⟨heq, _⟩)
      · exact absurd (lt_trans hlt hgt) (lt_irrefl _)
      · rw [heq] at hgt; exact absurd hgt (lt_irrefl _)

/-- C1. The source ordering `buildOrderedWeeklyRows` coincides with the
specified `orderRows`: rows whose points equal the maximum come first — sorted
by absolute distance of guess to target ascending (missing guess or target as
`+infinity`), ties by name, when there are two or more leaders — followed by
the rest, sorted by points descending then name ascending; the empty input
yields the empty output. -/
theorem buildOrderedWeeklyRows_eq_orderRowsSpec {α : Type} (pts : α → ℤ)
    (spd : α → Option ℚ) (nm : α → ℕ) (rows : List α) (official : Option ℚ) :
    buildOrderedWeeklyRows pts spd nm rows official = orderRowsSpec pts spd nm rows official ∧
      buildOrderedWeeklyRows pts spd nm ([] : List α) official = [] := by
  constructor
  · cases rows with
    | nil => rfl
    | cons x t =>
        unfold buildOrderedWeeklyRows orderRowsSpec
        simp only [List.isEmpty_cons, if_false, Bool.false_eq_true]
        rw [reduceMaxPoints_eq_max?]
        congr 1
        · split
          · unfold sortByCompare
            exact insertionSort_congr
              (fun a b => compareTopTie_ne_gt_iff_leaderLe spd nm official a b) _
          · rfl
        · unfold sortByCompare
          exact insertionSort_congr (fun a b => comparePoints_ne_gt_iff_restLe pts nm a b) _
  · rfl

/-! ## Weekly competition-rank assignment (`assignWeeklyRanks`) -/

/-- Embedding of the `forEach` rank loop of `assignWeeklyRanks`: carries the
running index, previous row points and previous rank, exactly as the source's
mutable `previousPoints`/`previousRank`. -/
def weeklyRankLoop {α : Type} (pts : α → ℤ) (topTie : Bool) (topPoints : ℤ) :
    List α → ℕ → Option ℤ → ℕ → List (α × ℕ)
  | [], _, _, _ => []
  | x :: xs, idx, prevPts, prevRank =>
    let rank := if topTie = true ∧ pts x = topPoints then idx + 1
      else if prevPts = some (pts x) then prevRank
      else idx + 1
    (x, rank) :: weeklyRankLoop pts topTie topPoints xs (idx + 1) (some (pts x)) rank

/-- Embedding of `assignWeeklyRanks`: order the rows, then walk them assigning
ranks; members of a top-points tie of size at least two get their 1-based
position as rank, other equal-points runs share the previous rank. -/
def assignWeeklyRanks {α : Type} (pts : α → ℤ) (spd : α → Option ℚ) (nm : α → ℕ)
    (rows : List α) (official : Option ℚ) : List (α × ℕ) :=
  match buildOrderedWeeklyRows pts spd nm rows official with
  | [] => []
  | s0 :: rest =>
    let sorted := s0 :: rest
    let topPoints := pts s0
    let topTieCount := (sorted.filter (fun r => decide (pts r = topPoints))).length
    weeklyRankLoop pts (decide (1 < topTieCount)) topPoints sorted 0 none 0

/-- Points value of the first ordered row (the top points value; 0 for an
empty list, which is never consulted). -/
def topPointsOf {α : Type} (pts : α → ℤ) : List α → ℤ
  | [] => 0
  | x :: _ => pts x

/-- Number of ordered rows tied at the top points value. -/
def topPointsCount {α : Type} (pts : α → ℤ) (l : List α) : ℕ :=
  (l.filter (fun r => decide (pts r = topPointsOf pts l))).length

theorem weeklyRankLoop_cons {α : Type} (pts : α → ℤ) (tie : Bool) (tp : ℤ)
    (x : α) (xs : List α) (idx : ℕ) (p : Option ℤ) (pr : ℕ) :
    weeklyRankLoop pts tie tp (x :: xs) idx p pr =
      (x, if tie = true ∧ pts x = tp then idx + 1
          else if p = some (pts x) then pr else idx + 1) ::
        weeklyRankLoop pts tie tp xs (idx + 1) (some (pts x))
          (if tie = true ∧ pts x = tp then idx + 1
           else if p = some (pts x) then pr else idx + 1) := rfl

theorem weeklyRankLoop_top {α : Type} (pts : α → ℤ) (tp : ℤ) :
    ∀ (l : List α) (idx : ℕ) (p : Option ℤ) (pr : ℕ) (i : ℕ) (a : α × ℕ),
      (weeklyRankLoop pts true tp l idx p pr).get? i = some a →
      pts a.1 = tp → a.2 = idx + i + 1 := by
  intro l
  induction l with
  | nil => intro idx p pr i a h; cases h
  | cons x xs ih =>
      intro idx p pr i a h htop
      rw [weeklyRankLoop_cons] at h
      cases i with
      | zero =>
          rw [List.get?_cons_zero, Option.some_inj] at h
          subst h
          have hx : pts x = tp := htop
          show (if true = true ∧ pts x = tp then idx + 1
                else if p = some (pts x) then pr else idx + 1) = idx + 0 + 1
          rw [if_pos ⟨rfl, hx⟩]
      | succ j =>
          rw [List.get?_cons_succ] at h
          have := ih (idx + 1) (some (pts x)) _ j a h htop
          omega

theorem weeklyRankLoop_adjacent {α : Type} (pts : α → ℤ) (tie : Bool) (tp : ℤ) :
    ∀ (l : List α) (idx : ℕ) (p : Option ℤ) (pr : ℕ) (i : ℕ) (a b : α × ℕ),
      (weeklyRankLoop pts tie tp l idx p pr).get? i = some a →
      (weeklyRankLoop pts tie tp l idx p pr).get? (i + 1) = some b →
      b.2 = if tie = true ∧ pts b.1 = tp then idx + i + 2
        else if pts b.1 = pts a.1 then a.2 else idx + i + 2 := by
  intro l
  induction l with
  | nil => intro idx p pr i a b h; cases h
  | cons x xs ih =>
      intro idx p pr i a b ha hb
      rw [weeklyRankLoop_cons] at ha hb
      cases i with
      | zero =>
          rw [List.get?_cons_zero, Option.some_inj] at ha
          subst ha
          rw [List.get?_cons_succ] at hb
          cases xs with
          | nil => cases hb
          | cons y ys =>
              rw [weeklyRankLoop_cons, List.get?_cons_zero, Option.some_inj] at hb
              subst hb
              by_cases htb : tie = true ∧ pts y = tp
              · show (if tie = true ∧ pts y = tp then idx + 1 + 1 else _) = _
                rw [if_pos htb, if_pos htb]
              · show (if tie = true ∧ pts y = tp then idx + 1 + 1 else _) = _
                rw [if_neg htb, if_neg htb]
                by_cases heq : pts y = pts x
                · rw [if_pos (Option.some_inj.2 heq.symm), if_pos heq]
                · rw [if_neg (fun hs => heq (Option.some_inj.1 hs).symm), if_neg heq]
      | succ j =>
          rw [List.get?_cons_succ] at ha hb
          have := ih (idx + 1) (some (pts x)) _ j a b ha hb
          by_cases hc : tie = true ∧ pts b.1 = tp
          · rw [if_pos hc] at this ⊢; omega
          · rw [if_neg hc] at this ⊢
            by_cases hc2 : pts b.1 = pts a.1
            · rw [if_pos hc2] at this ⊢; exact this
            · rw [if_neg hc2] at this ⊢; omega

theorem assignWeeklyRanks_of_ordered_nil {α : Type} (pts : α → ℤ) (spd : α → Option ℚ)
    (nm : α → ℕ) (rows : List α) (official : Option ℚ)
    (h : buildOrderedWeeklyRows pts spd nm rows official = []) :
    assignWeeklyRanks pts spd nm rows official = [] := by
  unfold assignWeeklyRanks
  rw [h]

theorem assignWeeklyRanks_of_ordered_cons {α : Type} (pts : α → ℤ) (spd : α → Option ℚ)
    (nm : α → ℕ) (rows : List α) (official : Option ℚ) (s0 : α) (rest : List α)
    (h : buildOrderedWeeklyRows pts spd nm rows official = s0 :: rest) :
    assignWeeklyRanks pts spd nm rows official =
      weeklyRankLoop pts
        (decide (1 < ((s0 :: rest).filter (fun r => decide (pts r = pts s0))).length))
        (pts s0) (s0 :: rest) 0 none 0 := by
  unfold assignWeeklyRanks
  rw [h]

/-- C2. In the weekly rank assignment: when the top-points tie group has at
least two members, every row carrying the top points value receives its
distinct 1-based position as rank; a row opening a new (different-points)
group receives its 1-based position as rank; any other row with the same
points as its predecessor (outside a top tie of size at least two) shares the
predecessor's rank. In particular points `[50,50,50,30]` rank as `[1,2,3,4]`
and `[50,40,40,30]` rank as `[1,2,2,4]`. -/
theorem assignWeeklyRanks_rank_rule :
    (∀ {α : Type} (pts : α → ℤ) (spd : α → Option ℚ) (nm : α → ℕ)
      (rows : List α) (official : Option ℚ),
      (2 ≤ topPointsCount pts (buildOrderedWeeklyRows pts spd nm rows official) →
        ∀ i a, (assignWeeklyRanks pts spd nm rows official).get? i = some a →
          pts a.1 = topPointsOf pts (buildOrderedWeeklyRows pts spd nm rows official) →
          a.2 = i + 1) ∧
      (∀ i a b, (assignWeeklyRanks pts spd nm rows official).get? i = some a →
        (assignWeeklyRanks pts spd nm rows official).get? (i + 1) = some b →
        pts b.1 ≠ pts a.1 → b.2 = i + 2) ∧
      (∀ i a b, (assignWeeklyRanks pts spd nm rows official).get? i = some a →
        (assignWeeklyRanks pts spd nm rows official).get? (i + 1) = some b →
        pts b.1 = pts a.1 →
        ¬(2 ≤ topPointsCount pts (buildOrderedWeeklyRows pts spd nm rows official) ∧
          pts b.1 = topPointsOf pts (buildOrderedWeeklyRows pts spd nm rows official)) →
        b.2 = a.2)) ∧
    ((assignWeeklyRanks (fun r : ℤ × ℕ => r.1) (fun _ => none) (fun r => r.2)
        [(50, 1), (50, 2), (50, 3), (30, 4)] none).map Prod.snd = [1, 2, 3, 4]) ∧
    ((assignWeeklyRanks (fun r : ℤ × ℕ => r.1) (fun _ => none) (fun r => r.2)
        [(50, 1), (40, 2), (40, 3), (30, 4)] none).map Prod.snd = [1, 2, 2, 4]) := by
  refine ⟨?_, by decide, by decide⟩
  intro α pts spd nm rows official
  cases hs : buildOrderedWeeklyRows pts spd nm rows official with
  | nil =>
      rw [assignWeeklyRanks_of_ordered_nil pts spd nm rows official hs]
      refine ⟨?_, ?_, ?_⟩
      · intro _ i a h; cases h
      · intro i a b h; cases h
      · intro i a b h; cases h
  | cons s0 rest =>
      rw [assignWeeklyRanks_of_ordered_cons pts spd nm rows official s0 rest hs]
      have htopof : topPointsOf pts (s0 :: rest) = pts s0 := rfl
      have hcount : topPointsCount pts (s0 :: rest) =
          ((s0 :: rest).filter (fun r => decide (pts r = pts s0))).length := by
        unfold topPointsCount
        rw [htopof]
      refine ⟨?_, ?_, ?_⟩
      · intro hk i a h htop
        rw [hcount] at hk
        have htie : decide (1 < ((s0 :: rest).filter
            (fun r => decide (pts r = pts s0))).length) = true := by
          simp only [decide_eq_true_eq]; omega
        rw [htie] at h
        rw [htopof] at htop
        have := weeklyRankLoop_top pts (pts s0) (s0 :: rest) 0 none 0 i a h htop
        omega
      · intro i a b ha hb hne
        have := weeklyRankLoop_adjacent pts _ (pts s0) (s0 :: rest) 0 none 0 i a b ha hb
        by_cases hc : decide (1 < ((s0 :: rest).filter
            (fun r => decide (pts r = pts s0))).length) = true ∧ pts b.1 = pts s0
        · rw [if_pos hc] at this; omega
        · rw [if_neg hc, if_neg hne] at this; omega
      · intro i a b ha hb heq hnot
        rw [hcount, htopof] at hnot
        have := weeklyRankLoop_adjacent pts _ (pts s0) (s0 :: rest) 0 none 0 i a b ha hb
        have hcond : ¬(decide (1 < ((s0 :: rest).filter
            (fun r => decide (pts r = pts s0))).length) = true ∧ pts b.1 = pts s0) := by
          intro hpair
          simp only [decide_eq_true_eq] at hpair
          exact hnot ⟨by omega, hpair.2⟩
        rw [if_neg hcond, if_pos heq] at this
        exact this

/-! ## Scoring data model (scoring module row types) -/

/-- A registered participant (profile with a non-empty team name). -/
structure Participant where
  id : String
  teamName : ℕ
deriving DecidableEq

/-- A pick row: one driver per group plus the tiebreak speed guess. -/
structure ScPickRow where
  user_id : String
  race_id : ℕ
  average_speed : ℚ
  driver_group1_id : ℕ
  driver_group2_id : ℕ
  driver_group3_id : ℕ
  driver_group4_id : ℕ
  driver_group5_id : ℕ
  driver_group6_id : ℕ
deriving DecidableEq

/-- A posted per-driver result for a race. -/
structure ResultRow where
  race_id : ℕ
  driver_id : ℕ
  points : ℤ
deriving DecidableEq

/-- A driver with its group number. -/
structure DriverRow where
  id : ℕ
  group_number : ℕ
deriving DecidableEq

/-- A race as consumed by the standings aggregation (display-only fields such
as the race name are omitted; the list order stands for the date order of the
source's date-ascending fetch). -/
structure RaceRow where
  id : ℕ
  race_date : ℕ
  official_winning_average_speed : Option ℚ
deriving DecidableEq

/-- JS `Map.set`: pointwise update where the later write wins. -/
def mapSet {κ ν : Type} [DecidableEq κ] (m : κ → Option ν) (k : κ) (v : ν) : κ → Option ν :=
  fun k' => if k' = k then some v else m k'

theorem foldl_mapSet_not_mem {κ ν ι : Type} [DecidableEq κ] (key : ι → κ) (val : ι → ν) :
    ∀ (l : List ι) (m : κ → Option ν) (k : κ), (∀ x ∈ l, key x ≠ k) →
      l.foldl (fun m x => mapSet m (key x) (val x)) m k = m k := by
  intro l
  induction l with
  | nil => intro m k _; rfl
  | cons x t ih =>
      intro m k h
      simp only [List.foldl_cons]
      rw [ih _ k (fun y hy => h y (List.mem_cons_of_mem x hy))]
      unfold mapSet
      rw [if_neg (fun he => h x (List.mem_cons_self x t) he.symm)]

/-- Map from `(raceId, driverId)` to posted points (the source's string-keyed
result map). -/
def resultPointsByRaceDriver (results : List ResultRow) : ℕ × ℕ → Option ℤ :=
  results.foldl (fun m r => mapSet m (r.race_id, r.driver_id) r.points) (fun _ => none)

/-- The posted results of one race (the source's `resultsByRace` bucket). -/
def resultsForRace (results : List ResultRow) (raceId : ℕ) : List ResultRow :=
  results.filter (fun r => decide (r.race_id = raceId))

/-- Embedding of the scoring module's `scorePick`: speed guess plus the sum of
the six picked drivers' posted points, a missing result counting 0. -/
def scorePick (pick : ScPickRow) (rm : ℕ × ℕ → Option ℤ) : ℚ × ℤ :=
  let driverIds := [pick.driver_group1_id, pick.driver_group2_id, pick.driver_group3_id,
    pick.driver_group4_id, pick.driver_group5_id, pick.driver_group6_id]
  (pick.average_speed, driverIds.foldl (fun sum d => sum + ((rm (pick.race_id, d)).getD 0)) 0)

/-- Driver id to group number map. -/
def driverGroupById (drivers : List DriverRow) : ℕ → Option ℕ :=
  drivers.foldl (fun m d => mapSet m d.id d.group_number) (fun _ => none)

/-- The points bucket of driver group `g` (consulted for `g` between 1 and 6
only, so the source's out-of-range guard is implied by the `gr = g` test). -/
def groupPointsList (results : List ResultRow) (grp : ℕ → Option ℕ) (g : ℕ) : List ℤ :=
  results.filterMap (fun r => match grp r.driver_id with
    | some gr => if gr = g then some r.points else none
    | none => none)

/-- Embedding of `computeRaceExtremes`: over the six groups, sum of the
maxima and sum of the minima of the posted points, empty groups skipped. -/
def computeRaceExtremes (results : List ResultRow) (grp : ℕ → Option ℕ) : ℤ × ℤ :=
  (List.range 6).foldl (fun acc i =>
    match groupPointsList results grp (i + 1) with
    | [] => acc
    | x :: xs => (acc.1 + xs.foldl max x, acc.2 + xs.foldl min x)) (0, 0)

/-- The spec's group-floor total: the sum over the six driver groups of the
minimum posted result points in the group, where a group with no posted
results contributes 0. -/
def specGroupFloorTotal (results : List ResultRow) (grp : ℕ → Option ℕ) : ℤ :=
  ((List.range 6).map (fun i =>
    ((((results.filter (fun r => decide (grp r.driver_id = some (i + 1)))).map
        (fun r => r.points)).min?).getD 0))).sum

theorem groupPointsList_eq_filter_map (results : List ResultRow) (grp : ℕ → Option ℕ)
    (g : ℕ) :
    groupPointsList results grp g =
      (results.filter (fun r => decide (grp r.driver_id = some g))).map (fun r => r.points) := by
  induction results with
  | nil => rfl
  | cons r t ih =>
      unfold groupPointsList at ih ⊢
      cases hgr : grp r.driver_id with
      | none =>
          simp only [List.filterMap_cons, List.filter_cons, hgr]
          simp only [Option.some.injEq, reduceCtorEq, decide_eq_true_eq, if_false]
          exact ih
      | some gr =>
          by_cases heq : gr = g
          · subst heq
            simp only [List.filterMap_cons, List.filter_cons, hgr]
            simp [ih]
          · simp only [List.filterMap_cons, List.filter_cons, hgr, if_neg heq]
            have : ¬ (some gr = some g) := fun hs => heq (Option.some_inj.1 hs)
            simp only [Option.some.injEq, decide_eq_true_eq, heq, if_false, this]
            exact ih

theorem computeRaceExtremes_foldl_snd (results : List ResultRow) (grp : ℕ → Option ℕ) :
    ∀ (l : List ℕ) (acc : ℤ × ℤ),
      (l.foldl (fun acc i =>
        match groupPointsList results grp (i + 1) with
        | [] => acc
        | x :: xs => (acc.1 + xs.foldl max x, acc.2 + xs.foldl min x)) acc).2 =
      acc.2 + (l.map (fun i => (((groupPointsList results grp (i + 1)).min?).getD 0))).sum := by
  intro l
  induction l with
  | nil => intro acc; simp
  | cons i t ih =>
      intro acc
      simp only [List.foldl_cons, List.map_cons, List.sum_cons]
      cases hgl : groupPointsList results grp (i + 1) with
      | nil =>
          rw [ih]
          simp [List.min?]
      | cons x xs =>
          rw [ih]
          simp only [List.min?, Option.getD_some]
          ring

/-- The "lowest" component of `computeRaceExtremes` is exactly the spec's
group-floor total. -/
theorem computeRaceExtremes_snd_eq_specGroupFloorTotal (results : List ResultRow)
    (grp : ℕ → Option ℕ) :
    (computeRaceExtremes results grp).2 = specGroupFloorTotal results grp := by
  unfold computeRaceExtremes specGroupFloorTotal
  rw [computeRaceExtremes_foldl_snd]
  simp only [zero_add]
  congr 1
  apply List.map_congr_left
  intro i _
  rw [groupPointsList_eq_filter_map]

/-! ## Cumulative standings ranking (`compareLeaderboardRows`,
`assignCompetitionRanks`) and the standings aggregation loop -/

/-- A ranking-input row of the cumulative standings. -/
structure CompRow where
  userId : String
  teamName : ℕ
  totalPoints : ℤ
  racePoints : ℤ
deriving DecidableEq

/-- Embedding of `compareLeaderboardRows`: cumulative total descending, then
that race's points descending, then name ascending. -/
def compareLeaderboardRows (a b : CompRow) : Ordering :=
  match cmpOf b.totalPoints a.totalPoints with
  | .eq =>
    match cmpOf b.racePoints a.racePoints with
    | .eq => localeCompare a.teamName b.teamName
    | o => o
  | o => o

/-- Embedding of the `forEach` rank loop of the scoring module's
`assignCompetitionRanks`: a row shares the previous rank exactly when both the
total points and the race points repeat. -/
def compRankLoop : List CompRow → ℕ → Option (ℤ × ℤ) → ℕ → List (CompRow × ℕ)
  | [], _, _, _ => []
  | x :: xs, idx, prev, prevRank =>
    let rank := if prev = some (x.totalPoints, x.racePoints) then prevRank else idx + 1
    (x, rank) :: compRankLoop xs (idx + 1) (some (x.totalPoints, x.racePoints)) rank

/-- Embedding of the scoring module's `assignCompetitionRanks`. -/
def assignCompetitionRanks (rows : List CompRow) : List (CompRow × ℕ) :=
  compRankLoop (sortByCompare compareLeaderboardRows rows) 0 none 0

/-- Aggregation state of `buildLeagueScoringSnapshot`: running cumulative
totals, the per-race points breakdown, and the per-race standings. -/
structure AggState where
  cumulative : String → ℤ
  breakdown : String × ℕ → Option ℤ
  standings : ℕ × String → Option ℕ

/-- Initial aggregation state (every participant starts at 0). -/
def initialAggState : AggState :=
  { cumulative := fun _ => 0, breakdown := fun _ => none, standings := fun _ => none }

/-- The per-race pass over the participants: returns the updated state and
the ranking-input rows, mirroring the source's `participants.map` with its
in-place `cumulativeByUser`/`raceBreakdownByUser` updates. -/
def raceParticipantsFold (pickScore : ℕ × String → Option (ℚ × ℤ)) (missing : ℤ)
    (raceId : ℕ) : List Participant → AggState → AggState × List CompRow
  | [], st => (st, [])
  | p :: ps, st =>
    let weekly := ((pickScore (raceId, p.id)).map (fun s => s.2)).getD missing
    let nextTotal := st.cumulative p.id + weekly
    let st' : AggState :=
      { cumulative := fun u => if u = p.id then nextTotal else st.cumulative u,
        breakdown := mapSet st.breakdown (p.id, raceId) weekly,
        standings := st.standings }
    let res := raceParticipantsFold pickScore missing raceId ps st'
    (res.1, ⟨p.id, p.teamName, nextTotal, weekly⟩ :: res.2)

/-- One race of the standings aggregation: score every participant (group-floor
fallback when they have no pick), rank, and record the standings. -/
def raceStep (participants : List Participant) (pickScore : ℕ × String → Option (ℚ × ℤ))
    (fallback : ℕ → Option ℤ) (st : AggState) (race : RaceRow) : AggState :=
  let missing := (fallback race.id).getD 0
  let res := raceParticipantsFold pickScore missing race.id participants st
  let ranked := assignCompetitionRanks res.2
  { cumulative := res.1.cumulative,
    breakdown := res.1.breakdown,
    standings := ranked.foldl (fun s rp => mapSet s (race.id, rp.1.userId) rp.2) res.1.standings }

/-- Per-race group-floor fallback (`computeLowestFallbackByRace`), defined for
the races that have at least one posted result. -/
def lowestFallbackByRace (results : List ResultRow) (grp : ℕ → Option ℕ) : ℕ → Option ℤ :=
  fun raceId =>
    if resultsForRace results raceId = [] then none
    else some (computeRaceExtremes (resultsForRace results raceId) grp).2

/-- The scored picks keyed by `(raceId, userId)`, restricted (as in the
source) to races with posted results. -/
def pickScoreMap (picks : List ScPickRow) (results : List ResultRow) :
    ℕ × String → Option (ℚ × ℤ) :=
  (picks.filter (fun pk => decide (¬ resultsForRace results pk.race_id = []))).foldl
    (fun m pk => mapSet m (pk.race_id, pk.user_id) (scorePick pk (resultPointsByRaceDriver results)))
    (fun _ => none)

/-- The races with at least one posted result, in the supplied (date) order. -/
def completedRaces (races : List RaceRow) (results : List ResultRow) : List RaceRow :=
  races.filter (fun race => decide (¬ resultsForRace results race.id = []))

/-- Pure core of `buildLeagueScoringSnapshot`: the standings aggregation over
all races with posted results. -/
def leagueAggregate (participants : List Participant) (races : List RaceRow)
    (picks : List ScPickRow) (results : List ResultRow) (drivers : List DriverRow) : AggState :=
  (completedRaces races results).foldl
    (raceStep participants (pickScoreMap picks results)
      (lowestFallbackByRace results (driverGroupById drivers)))
    initialAggState

theorem raceParticipantsFold_breakdown_preserved
    (pickScore : ℕ × String → Option (ℚ × ℤ)) (missing : ℤ) (raceId : ℕ) :
    ∀ (ps : List Participant) (st : AggState) (u : String) (rid : ℕ),
      (∀ q ∈ ps, ¬(q.id = u ∧ raceId = rid)) →
      (raceParticipantsFold pickScore missing raceId ps st).1.breakdown (u, rid) =
        st.breakdown (u, rid) := by
  intro ps
  induction ps with
  | nil => intro st u rid _; rfl
  | cons p t ih =>
      intro st u rid h
      show (raceParticipantsFold pickScore missing raceId t _).1.breakdown (u, rid) = _
      rw [ih _ u rid (fun q hq => h q (List.mem_cons_of_mem p hq))]
      show mapSet st.breakdown (p.id, raceId) _ (u, rid) = _
      unfold mapSet
      rw [if_neg]
      intro hpair
      exact h p (List.mem_cons_self p t)
        ⟨(Prod.mk.injEq _ _ _ _ ▸ hpair).1.symm, ((Prod.mk.injEq _ _ _ _ ▸ hpair).2).symm⟩

theorem raceParticipantsFold_breakdown_mem
    (pickScore : ℕ × String → Option (ℚ × ℤ)) (missing : ℤ) (raceId : ℕ) :
    ∀ (ps : List Participant) (st : AggState) (u : String),
      (∃ q ∈ ps, q.id = u) →
      (raceParticipantsFold pickScore missing raceId ps st).1.breakdown (u, raceId) =
        some (((pickScore (raceId, u)).map (fun s => s.2)).getD missing) := by
  intro ps
  induction ps with
  | nil => rintro st u ⟨q, hq, _⟩; cases hq
  | cons p t ih =>
      intro st u hex
      by_cases hrest : ∃ q ∈ t, q.id = u
      · exact ih _ u hrest
      · rcases hex with ⟨q, hq, hqu⟩
        rcases List.mem_cons.1 hq with hq | hq
        · subst hq
          show (raceParticipantsFold pickScore missing raceId t _).1.breakdown (u, raceId) = _
          rw [raceParticipantsFold_breakdown_preserved pickScore missing raceId t _ u raceId
            (fun q' hq' hand => hrest ⟨q', hq', hand.1⟩)]
          show mapSet st.breakdown (q.id, raceId) _ (u, raceId) = _
          unfold mapSet
          rw [if_pos (by rw [hqu]), hqu]
        · exact absurd ⟨q, hq, hqu⟩ hrest

theorem raceStep_breakdown_mem (participants : List Participant)
    (pickScore : ℕ × String → Option (ℚ × ℤ)) (fallback : ℕ → Option ℤ)
    (st : AggState) (race : RaceRow) (u : String) (hu : ∃ q ∈ participants, q.id = u) :
    (raceStep participants pickScore fallback st race).breakdown (u, race.id) =
      some (((pickScore (race.id, u)).map (fun s => s.2)).getD ((fallback race.id).getD 0)) := by
  unfold raceStep
  exact raceParticipantsFold_breakdown_mem pickScore _ race.id participants st u hu

theorem raceStep_breakdown_other (participants : List Participant)
    (pickScore : ℕ × String → Option (ℚ × ℤ)) (fallback : ℕ → Option ℤ)
    (st : AggState) (race : RaceRow) (u : String) (rid : ℕ) (hne : race.id ≠ rid) :
    (raceStep participants pickScore fallback st race).breakdown (u, rid) =
      st.breakdown (u, rid) := by
  unfold raceStep
  exact raceParticipantsFold_breakdown_preserved pickScore _ race.id participants st u rid
    (fun q _ hand => hne hand.2)

theorem foldl_raceStep_breakdown_preserved (participants : List Participant)
    (pickScore : ℕ × String → Option (ℚ × ℤ)) (fallback : ℕ → Option ℤ) :
    ∀ (rl : List RaceRow) (st : AggState) (u : String) (rid : ℕ),
      (∀ r' ∈ rl, r'.id ≠ rid) →
      (rl.foldl (raceStep participants pickScore fallback) st).breakdown (u, rid) =
        st.breakdown (u, rid) := by
  intro rl
  induction rl with
  | nil => intro st u rid _; rfl
  | cons r t ih =>
      intro st u rid h
      simp only [List.foldl_cons]
      rw [ih _ u rid (fun r' hr' => h r' (List.mem_cons_of_mem r hr'))]
      exact raceStep_breakdown_other participants pickScore fallback st r u rid
        (h r (List.mem_cons_self r t))

theorem foldl_raceStep_breakdown_mem (participants : List Participant)
    (pickScore : ℕ × String → Option (ℚ × ℤ)) (fallback : ℕ → Option ℤ) :
    ∀ (rl : List RaceRow) (st : AggState) (race : RaceRow) (u : String),
      race ∈ rl → (rl.map (fun r => r.id)).Nodup →
      (∃ q ∈ participants, q.id = u) →
      (rl.foldl (raceStep participants pickScore fallback) st).breakdown (u, race.id) =
        some (((pickScore (race.id, u)).map (fun s => s.2)).getD ((fallback race.id).getD 0)) := by
  intro rl
  induction rl with
  | nil => intro st race u h; cases h
  | cons r t ih =>
      intro st race u hmem hnd hu
      simp only [List.map_cons, List.nodup_cons] at hnd
      rcases List.mem_cons.1 hmem with hr | hr
      · subst hr
        simp only [List.foldl_cons]
        rw [foldl_raceStep_breakdown_preserved participants pickScore fallback t _ u race.id
          (fun r' hr' he => hnd.1 (he ▸ List.mem_map_of_mem (fun r => r.id) hr'))]
        exact raceStep_breakdown_mem participants pickScore fallback st race u hu
      · simp only [List.foldl_cons]
        exact ih _ race u hr hnd.2 hu

theorem pickScoreMap_eq_none (picks : List ScPickRow) (results : List ResultRow)
    (raceId : ℕ) (u : String)
    (h : ∀ pk ∈ picks, ¬(pk.race_id = raceId ∧ pk.user_id = u)) :
    pickScoreMap picks results (raceId, u) = none := by
  unfold pickScoreMap
  exact foldl_mapSet_not_mem (fun pk => (pk.race_id, pk.user_id)) _ _ _ _
    (fun pk hpk hkey => h pk (List.mem_of_mem_filter hpk)
      ⟨(Prod.mk.injEq _ _ _ _ ▸ hkey).1, (Prod.mk.injEq _ _ _ _ ▸ hkey).2⟩)

theorem completedRaces_id_nodup (races : List RaceRow) (results : List ResultRow)
    (hnd : (races.map (fun r => r.id)).Nodup) :
    ((completedRaces races results).map (fun r => r.id)).Nodup :=
  hnd.sublist (List.Sublist.map (fun r => r.id) (List.filter_sublist races))

theorem leagueAggregate_breakdown_no_pick
    (participants : List Participant) (races : List RaceRow) (picks : List ScPickRow)
    (results : List ResultRow) (drivers : List DriverRow) (race : RaceRow) (p : Participant)
    (hnd : (races.map (fun r => r.id)).Nodup)
    (hrace : race ∈ races)
    (hres : ¬ resultsForRace results race.id = [])
    (hp : p ∈ participants)
    (hnopick : ∀ pk ∈ picks, ¬(pk.race_id = race.id ∧ pk.user_id = p.id)) :
    (leagueAggregate participants races picks results drivers).breakdown (p.id, race.id) =
      some (computeRaceExtremes (resultsForRace results race.id) (driverGroupById drivers)).2 := by
  unfold leagueAggregate
  have hmem : race ∈ completedRaces races results := by
    unfold completedRaces
    rw [List.mem_filter]
    exact ⟨hrace, by simpa using hres⟩
  rw [foldl_raceStep_breakdown_mem participants (pickScoreMap picks results)
    (lowestFallbackByRace results (driverGroupById drivers)) (completedRaces races results)
    initialAggState race p.id hmem (completedRaces_id_nodup races results hnd) ⟨p, hp, rfl⟩]
  rw [pickScoreMap_eq_none picks results race.id p.id hnopick]
  unfold lowestFallbackByRace
  rw [if_neg hres]
  simp

/-- C3. In the standings aggregation, for every race with at least one posted
result, a participant with no pick row for that race is scored exactly the
race's group-floor total: the sum over the six driver groups of the minimum
posted result points in the group, a group with no posted results
contributing 0. -/
theorem leagueAggregate_no_pick_scores_group_floor
    (participants : List Participant) (races : List RaceRow) (picks : List ScPickRow)
    (results : List ResultRow) (drivers : List DriverRow) (race : RaceRow) (p : Participant)
    (hnd : (races.map (fun r => r.id)).Nodup)
    (hrace : race ∈ races)
    (hres : ¬ resultsForRace results race.id = [])
    (hp : p ∈ participants)
    (hnopick : ∀ pk ∈ picks, ¬(pk.race_id = race.id ∧ pk.user_id = p.id)) :
    (leagueAggregate participants races picks results drivers).breakdown (p.id, race.id) =
      some (specGroupFloorTotal (resultsForRace results race.id) (driverGroupById drivers)) := by
  rw [leagueAggregate_breakdown_no_pick participants races picks results drivers race p
    hnd hrace hres hp hnopick]
  rw [computeRaceExtremes_snd_eq_specGroupFloorTotal]

/-! ## Picks-by-Race view builder (`buildPicksByRaceSnapshot`) -/

/-- Map from driver id to posted points for the selected race. -/
def resultPointsByDriverId (resultRows : List ResultRow) : ℕ → Option ℤ :=
  resultRows.foldl (fun m r => mapSet m r.driver_id r.points) (fun _ => none)

/-- One step of the `minimumPointsByGroup` accumulation: keep the smaller
posted points value for the driver's group (groups outside 1..6 skipped). -/
def minGroupStep (grp : ℕ → Option ℕ) (m : ℕ → Option ℤ) (r : ResultRow) : ℕ → Option ℤ :=
  match grp r.driver_id with
  | none => m
  | some g =>
    if g < 1 ∨ 6 < g then m
    else
      match m g with
      | none => mapSet m g r.points
      | some cur => if r.points < cur then mapSet m g r.points else m

/-- Embedding of the `minimumPointsByGroup` accumulation: running minimum of
the posted points per driver group. -/
def minimumPointsByGroup (resultRows : List ResultRow) (grp : ℕ → Option ℕ) :
    ℕ → Option ℤ :=
  resultRows.foldl (minGroupStep grp) (fun _ => none)

theorem minGroupStep_of_none (grp : ℕ → Option ℕ) (m : ℕ → Option ℤ) (r : ResultRow)
    (hd : grp r.driver_id = none) : minGroupStep grp m r = m := by
  unfold minGroupStep
  rw [hd]

theorem minGroupStep_of_some (grp : ℕ → Option ℕ) (m : ℕ → Option ℤ) (r : ResultRow)
    (gr : ℕ) (hd : grp r.driver_id = some gr) :
    minGroupStep grp m r =
      if gr < 1 ∨ 6 < gr then m
      else
        match m gr with
        | none => mapSet m gr r.points
        | some cur => if r.points < cur then mapSet m gr r.points else m := by
  unfold minGroupStep
  rw [hd]

/-- Embedding of `pickDriverIds`: the six (optional) picked driver ids. -/
def pickDriverIds (pick : Option ScPickRow) : List (Option ℕ) :=
  [pick.map (fun p => p.driver_group1_id), pick.map (fun p => p.driver_group2_id),
   pick.map (fun p => p.driver_group3_id), pick.map (fun p => p.driver_group4_id),
   pick.map (fun p => p.driver_group5_id), pick.map (fun p => p.driver_group6_id)]

/-- Embedding of the per-group cell points of a picks-by-race row: posted
points of the picked driver (0 if missing), the group minimum for a
participant with no pick at all, `none` otherwise. -/
def picksByRaceCells (pick : Option ScPickRow) (resultsPosted : Bool)
    (resPts : ℕ → Option ℤ) (minBy : ℕ → Option ℤ) : List (Option ℤ) :=
  (pickDriverIds pick).enum.map (fun cell =>
    if resultsPosted = true then
      match cell.2 with
      | some driverId => some ((resPts driverId).getD 0)
      | none => if pick.isSome then none else minBy (cell.1 + 1)
    else none)

/-- Embedding of the picks-by-race row total: sum of the cells (missing cells
as 0) when results are posted, `null` otherwise. The post-ranking rewrite of
the source maps a posted total `some v` back to `some v`, so this is the
displayed total. -/
def picksByRaceTotalPoints (cells : List (Option ℤ)) (resultsPosted : Bool) : Option ℤ :=
  if resultsPosted = true then some (cells.foldl (fun sum c => sum + c.getD 0) 0) else none

theorem picksByRaceCells_no_pick (resPts minBy : ℕ → Option ℤ) :
    picksByRaceCells none true resPts minBy =
      [minBy 1, minBy 2, minBy 3, minBy 4, minBy 5, minBy 6] := rfl

theorem foldl_min_comm : ∀ (l : List ℤ) (a b : ℤ),
    l.foldl min (min a b) = min a (l.foldl min b) := by
  intro l
  induction l with
  | nil => intro a b; rfl
  | cons x t ih =>
      intro a b
      simp only [List.foldl_cons]
      rw [min_assoc, ih]

theorem min?_cons_expand (x : ℤ) (l : List ℤ) :
    (x :: l).min? = some (match l.min? with | none => x | some v => min x v) := by
  cases l with
  | nil => rfl
  | cons y t =>
      show some (List.foldl min x (y :: t)) = _
      simp only [List.min?, List.foldl_cons]
      rw [foldl_min_comm]

theorem foldl_min_le_init : ∀ (l : List ℤ) (a : ℤ), l.foldl min a ≤ a := by
  intro l
  induction l with
  | nil => intro a; exact le_refl a
  | cons x t ih =>
      intro a
      simp only [List.foldl_cons]
      exact le_trans (ih (min a x)) (min_le_left a x)

theorem groupPointsList_cons_none (grp : ℕ → Option ℕ) (r : ResultRow) (t : List ResultRow)
    (g : ℕ) (hd : grp r.driver_id = none) :
    groupPointsList (r :: t) grp g = groupPointsList t grp g := by
  unfold groupPointsList
  rw [List.filterMap_cons, hd]

theorem groupPointsList_cons_some_ne (grp : ℕ → Option ℕ) (r : ResultRow) (t : List ResultRow)
    (g gr : ℕ) (hd : grp r.driver_id = some gr) (hne : ¬ gr = g) :
    groupPointsList (r :: t) grp g = groupPointsList t grp g := by
  unfold groupPointsList
  rw [List.filterMap_cons, hd]
  simp [hne]

theorem groupPointsList_cons_some_eq (grp : ℕ → Option ℕ) (r : ResultRow) (t : List ResultRow)
    (g : ℕ) (hd : grp r.driver_id = some g) :
    groupPointsList (r :: t) grp g = r.points :: groupPointsList t grp g := by
  unfold groupPointsList
  rw [List.filterMap_cons, hd]
  simp

theorem minimumPointsByGroup_fold (grp : ℕ → Option ℕ) :
    ∀ (rows : List ResultRow) (m : ℕ → Option ℤ) (g : ℕ), 1 ≤ g → g ≤ 6 →
      (rows.foldl (minGroupStep grp) m) g =
      (match (groupPointsList rows grp g).min? with
       | none => m g
       | some v => some (match m g with | none => v | some c => min c v)) := by
  intro rows
  induction rows with
  | nil => intro m g _ _; rfl
  | cons r t ih =>
      intro m g hg1 hg6
      simp only [List.foldl_cons]
      cases hd : grp r.driver_id with
      | none =>
          rw [minGroupStep_of_none grp m r hd, ih m g hg1 hg6,
            groupPointsList_cons_none grp r t g hd]
      | some gr =>
          rw [minGroupStep_of_some grp m r gr hd]
          by_cases hr : gr < 1 ∨ 6 < gr
          · rw [if_pos hr, ih m g hg1 hg6,
              groupPointsList_cons_some_ne grp r t g gr hd (by omega)]
          · rw [if_neg hr]
            by_cases he : gr = g
            · subst he
              rw [groupPointsList_cons_some_eq grp r t gr hd, min?_cons_expand]
              cases hm : m gr with
              | none =>
                  rw [ih _ gr hg1 hg6]
                  cases hmt : (groupPointsList t grp gr).min? with
                  | none => simp [hm, hmt, mapSet]
                  | some v => simp [hm, hmt, mapSet]
              | some cur =>
                  by_cases hlt : r.points < cur
                  · rw [ih _ gr hg1 hg6]
                    cases hmt : (groupPointsList t grp gr).min? with
                    | none =>
                        simp only [hm, hmt, hlt, if_true, mapSet, if_pos rfl]
                        rw [min_eq_right (le_of_lt hlt)]
                    | some v =>
                        simp only [hm, hmt, hlt, if_true, mapSet, if_pos rfl,
                          Option.some.injEq]
                        omega
                  · rw [ih _ gr hg1 hg6]
                    cases hmt : (groupPointsList t grp gr).min? with
                    | none =>
                        simp only [hm, hmt, hlt, if_false, Option.some.injEq]
                        omega
                    | some v =>
                        simp only [hm, hmt, hlt, if_false, Option.some.injEq]
                        omega
            · have hne := he
              rw [groupPointsList_cons_some_ne grp r t g gr hd hne]
              have hstepg : (match m gr with
                  | none => mapSet m gr r.points
                  | some cur => if r.points < cur then mapSet m gr r.points else m) g = m g := by
                cases m gr with
                | none =>
                    show (if g = gr then some r.points else m g) = m g
                    rw [if_neg (fun hx => hne hx.symm)]
                | some cur =>
                    show (if r.points < cur then mapSet m gr r.points else m) g = m g
                    by_cases hlt : r.points < cur
                    · rw [if_pos hlt]
                      show (if g = gr then some r.points else m g) = m g
                      rw [if_neg (fun hx => hne hx.symm)]
                    · rw [if_neg hlt]
              rw [ih _ g hg1 hg6, hstepg]

theorem minimumPointsByGroup_eq_min? (resultRows : List ResultRow) (grp : ℕ → Option ℕ)
    (g : ℕ) (hg1 : 1 ≤ g) (hg6 : g ≤ 6) :
    minimumPointsByGroup resultRows grp g = (groupPointsList resultRows grp g).min? := by
  unfold minimumPointsByGroup
  rw [minimumPointsByGroup_fold grp resultRows _ g hg1 hg6]
  cases (groupPointsList resultRows grp g).min? <;> rfl

theorem picksByRace_no_pick_total (resultRows : List ResultRow) (grp : ℕ → Option ℕ)
    (resPts : ℕ → Option ℤ) :
    picksByRaceTotalPoints
      (picksByRaceCells none true resPts (minimumPointsByGroup resultRows grp)) true =
      some (computeRaceExtremes resultRows grp).2 := by
  rw [picksByRaceCells_no_pick]
  rw [computeRaceExtremes_snd_eq_specGroupFloorTotal]
  show some (0 + (minimumPointsByGroup resultRows grp 1).getD 0
      + (minimumPointsByGroup resultRows grp 2).getD 0
      + (minimumPointsByGroup resultRows grp 3).getD 0
      + (minimumPointsByGroup resultRows grp 4).getD 0
      + (minimumPointsByGroup resultRows grp 5).getD 0
      + (minimumPointsByGroup resultRows grp 6).getD 0) = _
  rw [minimumPointsByGroup_eq_min? resultRows grp 1 (by omega) (by omega),
    minimumPointsByGroup_eq_min? resultRows grp 2 (by omega) (by omega),
    minimumPointsByGroup_eq_min? resultRows grp 3 (by omega) (by omega),
    minimumPointsByGroup_eq_min? resultRows grp 4 (by omega) (by omega),
    minimumPointsByGroup_eq_min? resultRows grp 5 (by omega) (by omega),
    minimumPointsByGroup_eq_min? resultRows grp 6 (by omega) (by omega)]
  unfold specGroupFloorTotal
  have hrange : List.range 6 = [0, 1, 2, 3, 4, 5] := rfl
  rw [hrange]
  simp only [List.map_cons, List.map_nil, List.sum_cons, List.sum_nil]
  rw [← groupPointsList_eq_filter_map resultRows grp 1,
    ← groupPointsList_eq_filter_map resultRows grp 2,
    ← groupPointsList_eq_filter_map resultRows grp 3,
    ← groupPointsList_eq_filter_map resultRows grp 4,
    ← groupPointsList_eq_filter_map resultRows grp 5,
    ← groupPointsList_eq_filter_map resultRows grp 6]
  norm_num
  ring

/-- C8. For the same race with posted results, the picks-by-race view total of
a participant with no submitted pick equals the weekly score the standings
aggregation assigns them: both are the race's group-floor fallback, so the two
user-facing views agree. -/
theorem picksByRace_total_eq_standings_weekly_no_pick
    (participants : List Participant) (races : List RaceRow) (picks : List ScPickRow)
    (results : List ResultRow) (drivers : List DriverRow) (race : RaceRow) (p : Participant)
    (hnd : (races.map (fun r => r.id)).Nodup)
    (hrace : race ∈ races)
    (hres : ¬ resultsForRace results race.id = [])
    (hp : p ∈ participants)
    (hnopick : ∀ pk ∈ picks, ¬(pk.race_id = race.id ∧ pk.user_id = p.id)) :
    picksByRaceTotalPoints
      (picksByRaceCells none true (resultPointsByDriverId (resultsForRace results race.id))
        (minimumPointsByGroup (resultsForRace results race.id) (driverGroupById drivers)))
      true =
      (leagueAggregate participants races picks results drivers).breakdown (p.id, race.id) := by
  rw [leagueAggregate_breakdown_no_pick participants races picks results drivers race p
    hnd hrace hres hp hnopick]
  exact picksByRace_no_pick_total (resultsForRace results race.id) (driverGroupById drivers) _

/-! ## Participant analytics summary (`buildParticipantAnalyticsSnapshot`) -/

/-- A per-race analytics row of one participant (fields used by the summary;
`fieldSize` and the race name are presentation-only and omitted, dates are
modelled by their order). -/
structure ARow where
  raceId : ℕ
  raceDate : ℕ
  weeklyPoints : ℚ
  weeklyFinish : Option ℕ
  tiebreakDelta : Option ℚ
  submittedPick : Bool
  cumulativePoints : ℚ
deriving DecidableEq

/-- The analytics summary fields derived from the per-race rows
(`currentStanding` and `fieldSize` come from elsewhere and are omitted). -/
structure ASummary where
  averageFinish : Option ℚ
  averageTiebreakDelta : Option ℚ
  averageWeeklyPoints : ℚ
  bestWeek : Option ARow
  closestTiebreakDelta : Option ℚ
  completedRaces : ℕ
  lastThreeRaceAverage : Option ℚ
  momentumDelta : Option ℚ
  pickSubmissionRate : ℚ
  topThreeFinishes : ℕ
  totalPoints : ℚ
  weeklyWins : ℕ
  worstWeek : Option ARow
deriving DecidableEq

/-- Embedding of `average`: `null` on the empty list, else sum divided by
length. -/
def average (values : List ℚ) : Option ℚ :=
  if values.length = 0 then none
  else some ((values.foldl (fun sum v => sum + v) 0) / (values.length : ℚ))

/-- A missing weekly finish sorts as `+infinity` in the best/worst-week
comparisons. -/
def finishKey (f : Option ℕ) : WithTop ℕ :=
  match f with
  | some v => (v : WithTop ℕ)
  | none => ⊤

/-- Embedding of `pickBetterBestWeek`: more points, then better (lower)
finish, then more recent date. -/
def pickBetterBestWeek (current : Option ARow) (candidate : ARow) : ARow :=
  match current with
  | none => candidate
  | some cur =>
    if candidate.weeklyPoints ≠ cur.weeklyPoints then
      if cur.weeklyPoints < candidate.weeklyPoints then candidate else cur
    else if finishKey candidate.weeklyFinish ≠ finishKey cur.weeklyFinish then
      if finishKey candidate.weeklyFinish < finishKey cur.weeklyFinish then candidate else cur
    else if cur.raceDate < candidate.raceDate then candidate else cur

/-- Embedding of `pickWorseWeek`: fewer points, then worse (higher) finish,
then more recent date. -/
def pickWorseWeek (current : Option ARow) (candidate : ARow) : ARow :=
  match current with
  | none => candidate
  | some cur =>
    if candidate.weeklyPoints ≠ cur.weeklyPoints then
      if candidate.weeklyPoints < cur.weeklyPoints then candidate else cur
    else if finishKey candidate.weeklyFinish ≠ finishKey cur.weeklyFinish then
      if finishKey cur.weeklyFinish < finishKey candidate.weeklyFinish then candidate else cur
    else if cur.raceDate < candidate.raceDate then candidate else cur

/-- Embedding of the summary assembly of `buildParticipantAnalyticsSnapshot`
from the per-race rows (the general, non-early-return path). -/
def analyticsSummaryOfRaceRows (raceRows : List ARow) : ASummary :=
  let weeklyPoints : List ℚ := raceRows.map (fun row => row.weeklyPoints)
  let weeklyFinishes : List ℕ := (raceRows.map (fun row => row.weeklyFinish)).filterMap id
  let tiebreakDeltas : List ℚ := (raceRows.map (fun row => row.tiebreakDelta)).filterMap id
  let submittedCount := (raceRows.filter (fun row => row.submittedPick)).length
  let bestWeek := raceRows.foldl (fun best row => some (pickBetterBestWeek best row)) none
  let worstWeek := raceRows.foldl (fun worst row => some (pickWorseWeek worst row)) none
  let averageWeeklyPoints := (average weeklyPoints).getD 0
  let lastThreeRaceRows := raceRows.drop (raceRows.length - 3)
  let lastThreeRaceAverage := average (lastThreeRaceRows.map (fun row => row.weeklyPoints))
  { averageFinish := average (weeklyFinishes.map (fun f => (f : ℚ))),
    averageTiebreakDelta := average tiebreakDeltas,
    averageWeeklyPoints := averageWeeklyPoints,
    bestWeek := bestWeek,
    closestTiebreakDelta :=
      match tiebreakDeltas with
      | [] => none
      | x :: xs => some (xs.foldl min x),
    completedRaces := raceRows.length,
    lastThreeRaceAverage := lastThreeRaceAverage,
    momentumDelta := lastThreeRaceAverage.map (fun v => v - averageWeeklyPoints),
    pickSubmissionRate :=
      if raceRows.length = 0 then 0 else (submittedCount : ℚ) / (raceRows.length : ℚ),
    topThreeFinishes := (weeklyFinishes.filter (fun f => decide (f ≤ 3))).length,
    totalPoints := ((raceRows.getLast?).map (fun row => row.cumulativePoints)).getD 0,
    weeklyWins := (weeklyFinishes.filter (fun f => decide (f = 1))).length,
    worstWeek := worstWeek }

/-- The hard-coded summary of the source's zero-completed-races early return
(its `averageWeeklyPoints` is the literal 0, not `null`). -/
def emptyAnalyticsSummary : ASummary :=
  { averageFinish := none,
    averageTiebreakDelta := none,
    averageWeeklyPoints := 0,
    bestWeek := none,
    closestTiebreakDelta := none,
    completedRaces := 0,
    lastThreeRaceAverage := none,
    momentumDelta := none,
    pickSubmissionRate := 0,
    topThreeFinishes := 0,
    totalPoints := 0,
    weeklyWins := 0,
    worstWeek := none }

theorem analyticsSummary_nil_eq_empty :
    analyticsSummaryOfRaceRows [] = emptyAnalyticsSummary := rfl

/-- C9 counterexample. For a participant with zero completed races the
summary's average weekly points is the number 0 — not `null` — because the
source coalesces the empty-set mean with `?? 0` (and types the field
non-nullable); the claim that every mean over an empty set is null and
never 0 is therefore false for this field. -/
theorem analyticsSummary_averageWeeklyPoints_empty_is_zero :
    (analyticsSummaryOfRaceRows []).averageWeeklyPoints = 0 ∧
      analyticsSummaryOfRaceRows [] = emptyAnalyticsSummary := ⟨rfl, rfl⟩

/-- C9 amended. The means returned as nullable values — average finish,
average tiebreak delta, last-three-race average, and the momentum delta
derived from it — are `null` over empty sets (no division happens, so no
`NaN` arises either); the average weekly points, however, is typed
non-nullable and is 0, not `null`, when there are no completed races. -/
theorem analyticsSummary_empty_means
    (raceRows : List ARow) :
    ((raceRows.map (fun row => row.weeklyFinish)).filterMap id = [] →
      (analyticsSummaryOfRaceRows raceRows).averageFinish = none) ∧
    ((raceRows.map (fun row => row.tiebreakDelta)).filterMap id = [] →
      (analyticsSummaryOfRaceRows raceRows).averageTiebreakDelta = none ∧
        (analyticsSummaryOfRaceRows raceRows).closestTiebreakDelta = none) ∧
    (raceRows = [] →
      (analyticsSummaryOfRaceRows raceRows).lastThreeRaceAverage = none ∧
        (analyticsSummaryOfRaceRows raceRows).momentumDelta = none ∧
        (analyticsSummaryOfRaceRows raceRows).averageFinish = none ∧
        (analyticsSummaryOfRaceRows raceRows).averageTiebreakDelta = none ∧
        (analyticsSummaryOfRaceRows raceRows).averageWeeklyPoints = 0) := by
  refine ⟨?_, ?_, ?_⟩
  · intro h
    show average ((((raceRows.map (fun row => row.weeklyFinish)).filterMap id : List ℕ)).map
      (fun f => (f : ℚ))) = none
    rw [h]
    rfl
  · intro h
    constructor
    · show average ((raceRows.map (fun row => row.tiebreakDelta)).filterMap id) = none
      rw [h]
      rfl
    · show (match (raceRows.map (fun row => row.tiebreakDelta)).filterMap id with
        | [] => none
        | x :: xs => some (xs.foldl min x)) = none
      rw [h]
  · intro h
    subst h
    exact ⟨rfl, rfl, rfl, rfl, rfl⟩

/-! ## Claim C10: competition-rank tie sharing in the cumulative standings -/

/-- The sort-key order of `compareLeaderboardRows` as a relation: `a` precedes
(or ties) `b` when its key `(totalPoints desc, racePoints desc, name asc)` is
no later. -/
def keyGe (a b : CompRow) : Prop :=
  b.totalPoints < a.totalPoints ∨
    (a.totalPoints = b.totalPoints ∧
      (b.racePoints < a.racePoints ∨
        (a.racePoints = b.racePoints ∧ a.teamName ≤ b.teamName)))

/-- Equality on the rank-sharing key of `assignCompetitionRanks`. -/
def keyEq (a b : CompRow) : Prop :=
  a.totalPoints = b.totalPoints ∧ a.racePoints = b.racePoints

theorem compareLeaderboardRows_ne_gt_iff_keyGe (a b : CompRow) :
    (¬ compareLeaderboardRows a b = .gt) ↔ keyGe a b := by
  unfold compareLeaderboardRows keyGe
  rcases h : cmpOf b.totalPoints a.totalPoints with _ | _ | _
  · simp only [reduceCtorEq, not_false_iff, true_iff]
    exact Or.inl (cmpOf_eq_lt.1 h)
  · have heqt := cmpOf_eq_eq.1 h
    rcases h2 : cmpOf b.racePoints a.racePoints with _ | _ | _
    · simp only [reduceCtorEq, not_false_iff, true_iff]
      exact Or.inr ⟨heqt.symm, Or.inl (cmpOf_eq_lt.1 h2)⟩
    · have heqr := cmpOf_eq_eq.1 h2
      simp only [localeCompare_ne_gt]
      constructor
      · intro hle
        exact Or.inr ⟨heqt.symm, Or.inr ⟨heqr.symm, hle⟩⟩
      · rintro (hlt | ⟨_, hlt | ⟨_, hle⟩⟩)
        · omega
        · omega
        · exact hle
    · have hgt := cmpOf_eq_gt.1 h2
      apply iff_of_false
      · intro hne; exact hne rfl
      · rintro (hlt | ⟨_, hlt | ⟨heq, _⟩⟩) <;> omega
  · have hgt := cmpOf_eq_gt.1 h
    apply iff_of_false
    · intro hne; exact hne rfl
    · rintro (hlt | ⟨heq, _⟩) <;> omega

theorem keyGe_total (a b : CompRow) : keyGe a b ∨ keyGe b a := by
  unfold keyGe
  omega

theorem keyGe_trans (a b c : CompRow) : keyGe a b → keyGe b c → keyGe a c := by
  unfold keyGe
  omega

/-- The sorted prefix order of the cumulative standings. -/
theorem sortByCompare_leaderboard_pairwise (rows : List CompRow) :
    List.Pairwise keyGe (sortByCompare compareLeaderboardRows rows) := by
  haveI : IsTotal CompRow (fun a b => ¬ compareLeaderboardRows a b = .gt) := by
    constructor
    intro a b
    rcases keyGe_total a b with h | h
    · exact Or.inl ((compareLeaderboardRows_ne_gt_iff_keyGe a b).2 h)
    · exact Or.inr ((compareLeaderboardRows_ne_gt_iff_keyGe b a).2 h)
  haveI : IsTrans CompRow (fun a b => ¬ compareLeaderboardRows a b = .gt) := by
    constructor
    intro a b c hab hbc
    exact (compareLeaderboardRows_ne_gt_iff_keyGe a c).2
      (keyGe_trans a b c ((compareLeaderboardRows_ne_gt_iff_keyGe a b).1 hab)
        ((compareLeaderboardRows_ne_gt_iff_keyGe b c).1 hbc))
  have h := List.sorted_insertionSort (fun a b => ¬ compareLeaderboardRows a b = .gt) rows
  exact h.imp (fun hab => (compareLeaderboardRows_ne_gt_iff_keyGe _ _).1 hab)

theorem sorted_get?_keyGe {l : List CompRow} (hs : List.Pairwise keyGe l)
    {i m : ℕ} {x y : CompRow} (him : i < m) (hx : l.get? i = some x)
    (hy : l.get? m = some y) : keyGe x y := by
  rw [List.get?_eq_getElem?, List.getElem?_eq_some] at hx hy
  rcases hx with ⟨hi, hxe⟩
  rcases hy with ⟨hm, hye⟩
  have := (List.pairwise_iff_getElem.1 hs) i m hi hm him
  rw [hxe, hye] at this
  exact this

theorem compRankLoop_cons (x : CompRow) (xs : List CompRow) (idx : ℕ)
    (prev : Option (ℤ × ℤ)) (prevRank : ℕ) :
    compRankLoop (x :: xs) idx prev prevRank =
      (x, if prev = some (x.totalPoints, x.racePoints) then prevRank else idx + 1) ::
        compRankLoop xs (idx + 1) (some (x.totalPoints, x.racePoints))
          (if prev = some (x.totalPoints, x.racePoints) then prevRank else idx + 1) := rfl

theorem compRankLoop_get?_fst :
    ∀ (l : List CompRow) (idx : ℕ) (prev : Option (ℤ × ℤ)) (prevRank : ℕ) (i : ℕ),
      ((compRankLoop l idx prev prevRank).get? i).map Prod.fst = l.get? i := by
  intro l
  induction l with
  | nil => intro idx prev prevRank i; rfl
  | cons x xs ih =>
      intro idx prev prevRank i
      rw [compRankLoop_cons]
      cases i with
      | zero => rfl
      | succ j =>
          rw [List.get?_cons_succ, List.get?_cons_succ]
          exact ih _ _ _ j

theorem compRankLoop_adjacent :
    ∀ (l : List CompRow) (idx : ℕ) (prev : Option (ℤ × ℤ)) (prevRank : ℕ) (i : ℕ)
      (a b : CompRow × ℕ),
      (compRankLoop l idx prev prevRank).get? i = some a →
      (compRankLoop l idx prev prevRank).get? (i + 1) = some b →
      b.2 = if (a.1.totalPoints, a.1.racePoints) = (b.1.totalPoints, b.1.racePoints)
        then a.2 else idx + i + 2 := by
  intro l
  induction l with
  | nil => intro idx prev prevRank i a b h; cases h
  | cons x xs ih =>
      intro idx prev prevRank i a b ha hb
      rw [compRankLoop_cons] at ha hb
      cases i with
      | zero =>
          rw [List.get?_cons_zero, Option.some_inj] at ha
          subst ha
          rw [List.get?_cons_succ] at hb
          cases xs with
          | nil => cases hb
          | cons y ys =>
              rw [compRankLoop_cons, List.get?_cons_zero, Option.some_inj] at hb
              subst hb
              by_cases hk : (x.totalPoints, x.racePoints) = (y.totalPoints, y.racePoints)
              · show (if some (x.totalPoints, x.racePoints) =
                    some (y.totalPoints, y.racePoints) then _ else idx + 1 + 1) = _
                rw [if_pos (Option.some_inj.2 hk), if_pos hk]
              · show (if some (x.totalPoints, x.racePoints) =
                    some (y.totalPoints, y.racePoints) then _ else idx + 1 + 1) = _
                rw [if_neg (fun hs => hk (Option.some_inj.1 hs)), if_neg hk]
      | succ j =>
          rw [List.get?_cons_succ] at ha hb
          have := ih _ _ _ j a b ha hb
          by_cases hk : (a.1.totalPoints, a.1.racePoints) = (b.1.totalPoints, b.1.racePoints)
          · rw [if_pos hk] at this ⊢; exact this
          · rw [if_neg hk] at this ⊢; omega

theorem compRankLoop_chain (l : List CompRow) :
    ∀ (k i : ℕ) (a b : CompRow × ℕ),
      (compRankLoop l 0 none 0).get? i = some a →
      (compRankLoop l 0 none 0).get? (i + k) = some b →
      (∀ (m : ℕ) (c : CompRow × ℕ), i ≤ m → m ≤ i + k →
        (compRankLoop l 0 none 0).get? m = some c → keyEq c.1 a.1) →
      b.2 = a.2 := by
  intro k
  induction k with
  | zero =>
      intro i a b ha hb _
      rw [Nat.add_zero, ha, Option.some_inj] at hb
      rw [hb]
  | succ n ih =>
      intro i a b ha hb hmid
      cases hc : (compRankLoop l 0 none 0).get? (i + n) with
      | none =>
          rw [List.get?_eq_none] at hc
          rw [List.get?_eq_some] at hb
          rcases hb with ⟨hlen, _⟩
          omega
      | some c =>
          have hadj := compRankLoop_adjacent l 0 none 0 (i + n) c b hc (by
            have : i + n + 1 = i + (n + 1) := by omega
            rw [this]
            exact hb)
          have hkc : keyEq c.1 a.1 := hmid (i + n) c (by omega) (by omega) hc
          have hkb : keyEq b.1 a.1 := hmid (i + (n + 1)) b (by omega) (by omega) hb
          have hcb : (c.1.totalPoints, c.1.racePoints) = (b.1.totalPoints, b.1.racePoints) := by
            unfold keyEq at hkc hkb
            rw [Prod.mk.injEq]
            omega
          rw [if_pos hcb] at hadj
          rw [hadj]
          exact ih i a c ha hc (fun m d hm1 hm2 hd => hmid m d hm1 (by omega) hd)

theorem assignCompetitionRanks_shares_rank_of_keyEq (rows : List CompRow)
    (i j : ℕ) (a b : CompRow × ℕ)
    (ha : (assignCompetitionRanks rows).get? i = some a)
    (hb : (assignCompetitionRanks rows).get? j = some b)
    (hij : i ≤ j)
    (hkey : keyEq a.1 b.1) : a.2 = b.2 := by
  unfold assignCompetitionRanks at ha hb
  have hpw := sortByCompare_leaderboard_pairwise rows
  have hmid : ∀ (m : ℕ) (c : CompRow × ℕ), i ≤ m → m ≤ i + (j - i) →
      (compRankLoop (sortByCompare compareLeaderboardRows rows) 0 none 0).get? m = some c →
      keyEq c.1 a.1 := by
    intro m c him hmj hc
    have hfa := compRankLoop_get?_fst (sortByCompare compareLeaderboardRows rows) 0 none 0 i
    have hfb := compRankLoop_get?_fst (sortByCompare compareLeaderboardRows rows) 0 none 0 j
    have hfc := compRankLoop_get?_fst (sortByCompare compareLeaderboardRows rows) 0 none 0 m
    rw [ha] at hfa
    rw [hb] at hfb
    rw [hc] at hfc
    have hfa2 : (sortByCompare compareLeaderboardRows rows).get? i = some a.1 := hfa.symm
    have hfb2 : (sortByCompare compareLeaderboardRows rows).get? j = some b.1 := hfb.symm
    have hfc2 : (sortByCompare compareLeaderboardRows rows).get? m = some c.1 := hfc.symm
    rcases Nat.eq_or_lt_of_le him with hmi | hmi
    · rw [← hmi] at hfc2
      rw [hfc2, Option.some_inj] at hfa2
      rw [← hfa2]
      exact ⟨rfl, rfl⟩
    · have hmj' : m ≤ j := by omega
      rcases Nat.eq_or_lt_of_le hmj' with hmj2 | hmj2
      · rw [hmj2] at hfc2
        rw [hfc2, Option.some_inj] at hfb2
        rw [hfb2]
        unfold keyEq at hkey ⊢
        omega
      · have h1 : keyGe a.1 c.1 :=
          sorted_get?_keyGe hpw hmi hfa2 hfc2
        have h2 : keyGe c.1 b.1 :=
          sorted_get?_keyGe hpw hmj2 hfc2 hfb2
        unfold keyGe at h1 h2
        unfold keyEq at hkey ⊢
        omega
  have hb' : (compRankLoop (sortByCompare compareLeaderboardRows rows) 0 none 0).get?
      (i + (j - i)) = some b := by
    have : i + (j - i) = j := by omega
    rw [this]
    exact hb
  exact (compRankLoop_chain (sortByCompare compareLeaderboardRows rows) (j - i) i a b
    ha hb' hmid).symm

/-- C10. In the cumulative standings ranking, any two rows equal on both the
cumulative total and that race's weekly points share the same rank — a tie for
first place included, with no forced-distinct ranks — and a row opening a new
distinct group receives its 1-based position as rank. The concrete standings
with totals/race points `(50,20), (50,20), (40,10)` rank `[1,1,3]`. -/
theorem assignCompetitionRanks_tie_rule :
    (∀ (rows : List CompRow) (i j : ℕ) (a b : CompRow × ℕ),
      (assignCompetitionRanks rows).get? i = some a →
      (assignCompetitionRanks rows).get? j = some b →
      a.1.totalPoints = b.1.totalPoints → a.1.racePoints = b.1.racePoints →
      a.2 = b.2) ∧
    (∀ (rows : List CompRow) (i : ℕ) (a b : CompRow × ℕ),
      (assignCompetitionRanks rows).get? i = some a →
      (assignCompetitionRanks rows).get? (i + 1) = some b →
      ¬(a.1.totalPoints = b.1.totalPoints ∧ a.1.racePoints = b.1.racePoints) →
      b.2 = i + 2) ∧
    ((assignCompetitionRanks
        [⟨"u1", 1, 50, 20⟩, ⟨"u2", 2, 50, 20⟩, ⟨"u3", 3, 40, 10⟩]).map Prod.snd =
      [1, 1, 3]) := by
  refine ⟨?_, ?_, by decide⟩
  · intro rows i j a b ha hb htot hrace
    rcases Nat.le_total i j with hij | hij
    · exact assignCompetitionRanks_shares_rank_of_keyEq rows i j a b ha hb hij ⟨htot, hrace⟩
    · exact (assignCompetitionRanks_shares_rank_of_keyEq rows j i b a hb ha hij
        ⟨htot.symm, hrace.symm⟩).symm
  · intro rows i a b ha hb hne
    unfold assignCompetitionRanks at ha hb
    have := compRankLoop_adjacent (sortByCompare compareLeaderboardRows rows) 0 none 0 i
      a b ha hb
    rw [if_neg (fun hp => hne ⟨(Prod.mk.injEq _ _ _ _ ▸ hp).1,
      (Prod.mk.injEq _ _ _ _ ▸ hp).2⟩)] at this
    omega

/-! ## Fantasy-winner finalizer (race winner scheduling and finalization)

The persistent store is modelled as an explicit record of rows; each operation
returns the post-state together with its `Except` outcome, and the source's
conditional update (`update ... eq id ... eq is_archived false ... maybeSingle`)
is modelled as a guarded map plus the count of matched rows. Timestamps are
integers (milliseconds). The team-name placeholder derived from the user id
for a missing profile is an uninterpreted parameter `fallbackName`, since only
its order relative to real names could matter. -/

/-- A race row with its winner bookkeeping fields. -/
structure RaceRec where
  id : ℕ
  isArchived : Bool
  officialWinningAverageSpeed : Option ℚ
  winnerProfileId : Option String
  winnerSource : Option String
  winnerIsManualOverride : Bool
  winnerAutoEligibleAt : Option ℤ
  winnerSetAt : Option ℤ
deriving DecidableEq

/-- The store consumed by the finalizer. -/
structure FanDB where
  races : List RaceRec
  picks : List ScPickRow
  results : List ResultRow
  profiles : List Participant
deriving DecidableEq

/-- The scheduling delay (minutes). -/
def AUTO_WINNER_DELAY_MINUTES : ℤ := 15

/-- Embedding of the finalizer's `scorePick`: sum of the six picked drivers'
points in the per-driver points map, missing drivers counting 0. -/
def scorePickByDriver (pick : ScPickRow) (pointsBy : ℕ → Option ℤ) : ℤ :=
  [pick.driver_group1_id, pick.driver_group2_id, pick.driver_group3_id,
    pick.driver_group4_id, pick.driver_group5_id, pick.driver_group6_id].foldl
    (fun sum d => sum + ((pointsBy d).getD 0)) 0

/-- A scored row entering the winner ordering. -/
structure WinnerRow where
  userId : String
  teamName : ℕ
  points : ℤ
  averageSpeed : ℚ
deriving DecidableEq

/-- The official speed of the queried race (`maybeSingle` on the id). -/
def officialSpeedOfRace (races : List RaceRec) (raceId : ℕ) : Option ℚ :=
  match races.find? (fun r => decide (r.id = raceId)) with
  | none => none
  | some r => r.officialWinningAverageSpeed

/-- The scored winner-candidate rows of a race: one row per pick, with the
profile's team name (or the placeholder for a missing profile) and the pick's
score against that race's results. -/
def winnerRowsOf (fallbackName : String → ℕ) (picks : List ScPickRow)
    (results : List ResultRow) (profiles : List Participant) (raceId : ℕ) :
    List WinnerRow :=
  let pickRows := picks.filter (fun pk => decide (pk.race_id = raceId))
  let resultRows := results.filter (fun r => decide (r.race_id = raceId))
  let pointsBy := resultPointsByDriverId resultRows
  let userIds : List String := (pickRows.map (fun pk => pk.user_id)).dedup
  let teamNameByUserId :=
    (profiles.filter (fun pr => decide (pr.id ∈ userIds))).foldl
      (fun m pr => mapSet m pr.id pr.teamName) (fun _ => none)
  pickRows.map (fun pk =>
    { userId := pk.user_id,
      teamName := (teamNameByUserId pk.user_id).getD (fallbackName pk.user_id),
      points := scorePickByDriver pk pointsBy,
      averageSpeed := pk.average_speed })

/-- Embedding of `calculateRaceWinnerProfileId`: score that race's picks, order
them with the weekly tiebreak ordering against the race's official speed, and
take the top row's user; `none` when the race has no picks. -/
def calculateRaceWinnerProfileId (fallbackName : String → ℕ) (db : FanDB)
    (raceId : ℕ) : Option String :=
  if db.picks.filter (fun pk => decide (pk.race_id = raceId)) = [] then none
  else
    ((buildOrderedWeeklyRows (fun row => row.points)
      (fun row => some row.averageSpeed) (fun row => row.teamName)
      (winnerRowsOf fallbackName db.picks db.results db.profiles raceId)
      (officialSpeedOfRace db.races raceId)).head?).map (fun row => row.userId)

/-- Applies the row update `f` to a race exactly when the id matches and the
race is not archived (the `eq id / eq is_archived false` update condition). -/
def raceGuardUpdate (raceId : ℕ) (f : RaceRec → RaceRec) (x : RaceRec) : RaceRec :=
  if x.id = raceId ∧ x.isArchived = false then f x else x

/-- The conditional race update: applies `f` to the rows matching the id whose
`is_archived` is false, and reports how many rows matched. -/
def updateRaceWhere (db : FanDB) (raceId : ℕ) (f : RaceRec → RaceRec) : FanDB × ℕ :=
  ({ db with races := db.races.map (raceGuardUpdate raceId f) },
   (db.races.filter (fun r => decide (r.id = raceId ∧ r.isArchived = false))).length)

/-- The fields written by scheduling: eligibility 15 minutes out, override
cleared. -/
def scheduleUpdate (now : ℤ) (r : RaceRec) : RaceRec :=
  { r with
    winnerAutoEligibleAt := some (now + AUTO_WINNER_DELAY_MINUTES * 60000)
    winnerIsManualOverride := false }

/-- Embedding of `scheduleRaceWinnerAutoCalculation`: set the eligibility
timestamp 15 minutes out and clear the override, rejecting with no mutation
when only an archived (or no) race matches. -/
def scheduleRaceWinnerAutoCalculation (now : ℤ) (db : FanDB) (raceId : ℕ) :
    FanDB × Except String Unit :=
  let upd := updateRaceWhere db raceId (scheduleUpdate now)
  (upd.1,
   if upd.2 = 0 then
     Except.error "Cannot schedule winner auto-calculation for an archived race."
   else Except.ok ())

/-- The winner fields written by an auto finalization: the computed winner,
source auto, cleared eligibility and override, and a set-at timestamp that is
the current time when a winner exists and null otherwise. -/
def winnerUpdate (winnerProfileId : Option String) (now : ℤ) (r : RaceRec) : RaceRec :=
  { r with
    winnerAutoEligibleAt := none
    winnerIsManualOverride := false
    winnerProfileId := winnerProfileId
    winnerSetAt := if winnerProfileId.isSome then some now else none
    winnerSource := some "auto" }

/-- Embedding of `finalizeRaceWinnerNow`: compute the winner, then persist it;
rejects with no mutation when only an archived (or no) race matches. -/
def finalizeRaceWinnerNow (fallbackName : String → ℕ) (now : ℤ) (db : FanDB)
    (raceId : ℕ) : FanDB × Except String (Option String) :=
  let winnerProfileId := calculateRaceWinnerProfileId fallbackName db raceId
  let upd := updateRaceWhere db raceId (winnerUpdate winnerProfileId now)
  (upd.1,
   if upd.2 = 0 then Except.error "Cannot finalize winner for an archived race."
   else Except.ok winnerProfileId)

/-- Whether an eligibility timestamp is set and due. -/
def dueAt (now : ℤ) (elig : Option ℤ) : Bool :=
  match elig with
  | none => false
  | some t => decide (t ≤ now)

/-- The batch selection of `finalizeDueRaceWinners`: non-archived,
non-override races whose eligibility timestamp is set and due, oldest first,
at most 100. -/
def pendingDueRaces (now : ℤ) (db : FanDB) : List RaceRec :=
  (List.insertionSort
    (fun a b => (a.winnerAutoEligibleAt.getD 0) ≤ (b.winnerAutoEligibleAt.getD 0))
    (db.races.filter (fun r =>
      decide (r.isArchived = false) && decide (r.winnerIsManualOverride = false) &&
        dueAt now r.winnerAutoEligibleAt))).take 100

/-- The finalization loop over the pending race ids; an error aborts the loop
(state changes made so far persist, as with the source's awaited calls). -/
def runFinalizeList (fallbackName : String → ℕ) (now : ℤ) :
    List ℕ → FanDB → FanDB × Option String
  | [], db => (db, none)
  | raceId :: rest, db =>
    let step := finalizeRaceWinnerNow fallbackName now db raceId
    match step.2 with
    | Except.error e => (step.1, some e)
    | Except.ok _ => runFinalizeList fallbackName now rest step.1

/-- Embedding of `finalizeDueRaceWinners`: finalize every due race, oldest
first, returning the processed and updated counts. -/
def finalizeDueRaceWinners (fallbackName : String → ℕ) (now : ℤ) (db : FanDB) :
    FanDB × Except String (ℕ × ℕ) :=
  let pending := pendingDueRaces now db
  let run := runFinalizeList fallbackName now (pending.map (fun r => r.id)) db
  match run.2 with
  | some e => (run.1, Except.error e)
  | none => (run.1, Except.ok (pending.length, pending.length))

/-- Embedding of the admin action's manual-winner branch: persists the chosen
winner with source manual, sets the override flag and clears the eligibility
timestamp (the action separately rejects archived races beforehand). -/
def setRaceWinnerManual (now : ℤ) (db : FanDB) (raceId : ℕ)
    (winnerProfileId : String) : FanDB :=
  { db with races := db.races.map (fun r =>
      if r.id = raceId then
        { r with
          winnerAutoEligibleAt := none
          winnerIsManualOverride := true
          winnerProfileId := some winnerProfileId
          winnerSetAt := some now
          winnerSource := some "manual" }
      else r) }

theorem races_id_nodup_inj {l : List RaceRec}
    (hnd : (l.map (fun r => r.id)).Nodup) :
    ∀ x ∈ l, ∀ y ∈ l, x.id = y.id → x = y := by
  induction l with
  | nil => intro x hx; cases hx
  | cons a t ih =>
      simp only [List.map_cons, List.nodup_cons] at hnd
      intro x hx y hy hxy
      rcases List.mem_cons.1 hx with hx1 | hx1
      · rcases List.mem_cons.1 hy with hy1 | hy1
        · rw [hx1, hy1]
        · exfalso
          apply hnd.1
          have hmem : y.id ∈ List.map (fun r => r.id) t :=
            List.mem_map_of_mem (fun r => r.id) hy1
          rw [← hxy, hx1] at hmem
          exact hmem
      · rcases List.mem_cons.1 hy with hy1 | hy1
        · exfalso
          apply hnd.1
          have hmem : x.id ∈ List.map (fun r => r.id) t :=
            List.mem_map_of_mem (fun r => r.id) hx1
          rw [hxy, hy1] at hmem
          exact hmem
        · exact ih hnd.2 x hx1 y hy1 hxy

theorem scheduleRaceWinnerAutoCalculation_eq (now : ℤ) (db : FanDB) (raceId : ℕ) :
    scheduleRaceWinnerAutoCalculation now db raceId =
      ((updateRaceWhere db raceId (scheduleUpdate now)).1,
       if (updateRaceWhere db raceId (scheduleUpdate now)).2 = 0 then
         Except.error "Cannot schedule winner auto-calculation for an archived race."
       else Except.ok ()) := rfl

theorem finalizeRaceWinnerNow_eq (fallbackName : String → ℕ) (now : ℤ) (db : FanDB)
    (raceId : ℕ) :
    finalizeRaceWinnerNow fallbackName now db raceId =
      ((updateRaceWhere db raceId
          (winnerUpdate (calculateRaceWinnerProfileId fallbackName db raceId) now)).1,
       if (updateRaceWhere db raceId
          (winnerUpdate (calculateRaceWinnerProfileId fallbackName db raceId) now)).2 = 0 then
         Except.error "Cannot finalize winner for an archived race."
       else Except.ok (calculateRaceWinnerProfileId fallbackName db raceId)) := rfl

theorem raceGuardUpdate_pos (raceId : ℕ) (f : RaceRec → RaceRec) (x : RaceRec)
    (h : x.id = raceId ∧ x.isArchived = false) : raceGuardUpdate raceId f x = f x := by
  unfold raceGuardUpdate
  rw [if_pos h]

theorem raceGuardUpdate_neg (raceId : ℕ) (f : RaceRec → RaceRec) (x : RaceRec)
    (h : ¬(x.id = raceId ∧ x.isArchived = false)) : raceGuardUpdate raceId f x = x := by
  unfold raceGuardUpdate
  rw [if_neg h]

theorem map_guard_id (raceId : ℕ) (f : RaceRec → RaceRec) :
    ∀ (l : List RaceRec), (∀ r ∈ l, ¬(r.id = raceId ∧ r.isArchived = false)) →
      l.map (raceGuardUpdate raceId f) = l := by
  intro l
  induction l with
  | nil => intro _; rfl
  | cons a t ih =>
      intro h
      rw [List.map_cons, raceGuardUpdate_neg raceId f a (h a (List.mem_cons_self a t)),
        ih (fun r hr => h r (List.mem_cons_of_mem a hr))]

theorem updateRaceWhere_no_match (db : FanDB) (raceId : ℕ) (f : RaceRec → RaceRec)
    (h : ∀ r ∈ db.races, ¬(r.id = raceId ∧ r.isArchived = false)) :
    updateRaceWhere db raceId f = (db, 0) := by
  unfold updateRaceWhere
  rw [map_guard_id raceId f db.races h]
  rw [List.filter_eq_nil_iff.2 (fun r hr => by simpa using h r hr)]
  rfl

theorem updateRaceWhere_matched (db : FanDB) (raceId : ℕ) (f : RaceRec → RaceRec)
    (r : RaceRec) (hr : r ∈ db.races) (hid : r.id = raceId)
    (harch : r.isArchived = false) : ¬ (updateRaceWhere db raceId f).2 = 0 := by
  unfold updateRaceWhere
  intro hzero
  have hmem : r ∈ db.races.filter (fun r => decide (r.id = raceId ∧ r.isArchived = false)) :=
    List.mem_filter.2 ⟨hr, by simp [hid, harch]⟩
  rw [List.length_eq_zero] at hzero
  rw [hzero] at hmem
  cases hmem

theorem updateRaceWhere_mem (db : FanDB) (raceId : ℕ) (f : RaceRec → RaceRec) :
    ∀ r' ∈ (updateRaceWhere db raceId f).1.races,
      ∃ x ∈ db.races, r' = raceGuardUpdate raceId f x := by
  intro r' hr'
  have hmap : r' ∈ db.races.map (raceGuardUpdate raceId f) := hr'
  rcases List.mem_map.1 hmap with ⟨x, hx, hxe⟩
  exact ⟨x, hx, hxe.symm⟩

/-- C6. Both scheduling and immediate finalization against an archived race
reject with a descriptive error and leave the store unchanged. -/
theorem archived_race_schedule_and_finalize_rejected (fallbackName : String → ℕ)
    (now : ℤ) (db : FanDB) (raceId : ℕ) (r : RaceRec)
    (hnd : (db.races.map (fun x => x.id)).Nodup)
    (hr : r ∈ db.races) (hid : r.id = raceId) (harch : r.isArchived = true) :
    scheduleRaceWinnerAutoCalculation now db raceId =
      (db, Except.error "Cannot schedule winner auto-calculation for an archived race.") ∧
    finalizeRaceWinnerNow fallbackName now db raceId =
      (db, Except.error "Cannot finalize winner for an archived race.") := by
  have hall : ∀ x ∈ db.races, ¬(x.id = raceId ∧ x.isArchived = false) := by
    rintro x hx ⟨hxid, hxarch⟩
    have hxr : x = r := races_id_nodup_inj hnd x hx r hr (by rw [hxid, hid])
    rw [hxr] at hxarch
    rw [harch] at hxarch
    cases hxarch
  constructor
  · rw [scheduleRaceWinnerAutoCalculation_eq, updateRaceWhere_no_match db raceId _ hall]
    rfl
  · rw [finalizeRaceWinnerNow_eq, updateRaceWhere_no_match db raceId _ hall]
    rfl

theorem finalizeRaceWinnerNow_ok (fallbackName : String → ℕ) (now : ℤ) (db : FanDB)
    (raceId : ℕ) (r : RaceRec) (hr : r ∈ db.races) (hid : r.id = raceId)
    (harch : r.isArchived = false) :
    (finalizeRaceWinnerNow fallbackName now db raceId).2 =
      Except.ok (calculateRaceWinnerProfileId fallbackName db raceId) := by
  rw [finalizeRaceWinnerNow_eq]
  rw [if_neg (updateRaceWhere_matched db raceId _ r hr hid harch)]

theorem finalizeRaceWinnerNow_race_fields (fallbackName : String → ℕ) (now : ℤ)
    (db : FanDB) (raceId : ℕ) (r : RaceRec)
    (hnd : (db.races.map (fun x => x.id)).Nodup)
    (hr : r ∈ db.races) (hid : r.id = raceId) (harch : r.isArchived = false) :
    ∀ r' ∈ (finalizeRaceWinnerNow fallbackName now db raceId).1.races, r'.id = raceId →
      r'.winnerProfileId = calculateRaceWinnerProfileId fallbackName db raceId ∧
      r'.winnerSource = some "auto" ∧
      r'.winnerAutoEligibleAt = none ∧
      r'.winnerIsManualOverride = false ∧
      r'.winnerSetAt = (if (calculateRaceWinnerProfileId fallbackName db raceId).isSome
        then some now else none) := by
  intro r' hr' hr'id
  have hmem : r' ∈ (updateRaceWhere db raceId
      (winnerUpdate (calculateRaceWinnerProfileId fallbackName db raceId) now)).1.races := hr'
  rcases updateRaceWhere_mem db raceId _ r' hmem with ⟨x, hx, hxe⟩
  by_cases hp : x.id = raceId ∧ x.isArchived = false
  · rw [raceGuardUpdate_pos raceId _ x hp] at hxe
    rw [hxe]
    exact ⟨rfl, rfl, rfl, rfl, rfl⟩
  · rw [raceGuardUpdate_neg raceId _ x hp] at hxe
    have hxid : x.id = raceId := by rw [← hxe]; exact hr'id
    have hxr : x = r := races_id_nodup_inj hnd x hx r hr (by rw [hxid, hid])
    rw [hxr] at hp
    exact absurd ⟨hid, harch⟩ hp

/-- C4 counterexample store: one active race, no picks, no results. -/
def c4ExampleDB : FanDB :=
  { races := [{ id := 1
                isArchived := false
                officialWinningAverageSpeed := none
                winnerProfileId := none
                winnerSource := none
                winnerIsManualOverride := false
                winnerAutoEligibleAt := none
                winnerSetAt := none }]
    picks := []
    results := []
    profiles := [] }

/-- C4 counterexample. A successful finalization of a race with zero picks
persists `winnerSetAt = null`, not the current time (5 here): the source
computes `winnerSetAt` as `winnerProfileId ? now : null`. -/
theorem finalizeRaceWinnerNow_zero_picks_winnerSetAt_null :
    (finalizeRaceWinnerNow (fun _ => 0) 5 c4ExampleDB 1).2 = Except.ok none ∧
    ((finalizeRaceWinnerNow (fun _ => 0) 5 c4ExampleDB 1).1.races.map
      (fun r => r.winnerSetAt)) = [none] ∧
    (none : Option ℤ) ≠ some 5 := ⟨rfl, rfl, by decide⟩

/-- C4 amended. A finalization of a non-archived race succeeds and returns the
winner computed as the head of the Tiebreak-Resolver ordering of that race's
scored picks (null when the race has zero picks), and persists on that race:
the winner, source auto, cleared eligibility timestamp and override, and a
`winnerSetAt` equal to the current time when a winner exists and null when
there is none. -/
theorem finalizeRaceWinnerNow_success_spec (fallbackName : String → ℕ) (now : ℤ)
    (db : FanDB) (raceId : ℕ) (r : RaceRec)
    (hnd : (db.races.map (fun x => x.id)).Nodup)
    (hr : r ∈ db.races) (hid : r.id = raceId) (harch : r.isArchived = false) :
    (finalizeRaceWinnerNow fallbackName now db raceId).2 =
      Except.ok (calculateRaceWinnerProfileId fallbackName db raceId) ∧
    (db.picks.filter (fun pk => decide (pk.race_id = raceId)) = [] →
      calculateRaceWinnerProfileId fallbackName db raceId = none) ∧
    (¬ db.picks.filter (fun pk => decide (pk.race_id = raceId)) = [] →
      calculateRaceWinnerProfileId fallbackName db raceId =
        ((buildOrderedWeeklyRows (fun row => row.points)
          (fun row => some row.averageSpeed) (fun row => row.teamName)
          (winnerRowsOf fallbackName db.picks db.results db.profiles raceId)
          (officialSpeedOfRace db.races raceId)).head?).map (fun row => row.userId)) ∧
    (∀ r' ∈ (finalizeRaceWinnerNow fallbackName now db raceId).1.races, r'.id = raceId →
      r'.winnerProfileId = calculateRaceWinnerProfileId fallbackName db raceId ∧
      r'.winnerSource = some "auto" ∧
      r'.winnerAutoEligibleAt = none ∧
      r'.winnerIsManualOverride = false ∧
      r'.winnerSetAt = (if (calculateRaceWinnerProfileId fallbackName db raceId).isSome
        then some now else none)) := by
  refine ⟨finalizeRaceWinnerNow_ok fallbackName now db raceId r hr hid harch, ?_, ?_, ?_⟩
  · intro h
    unfold calculateRaceWinnerProfileId
    rw [if_pos h]
  · intro h
    unfold calculateRaceWinnerProfileId
    rw [if_neg h]
  · exact finalizeRaceWinnerNow_race_fields fallbackName now db raceId r hnd hr hid harch

theorem officialSpeedOfRace_map (races : List RaceRec) (raceId : ℕ) (g : RaceRec → RaceRec)
    (hid : ∀ x, (g x).id = x.id)
    (hsp : ∀ x, (g x).officialWinningAverageSpeed = x.officialWinningAverageSpeed) :
    officialSpeedOfRace (races.map g) raceId = officialSpeedOfRace races raceId := by
  unfold officialSpeedOfRace
  rw [List.find?_map]
  have hp : ((fun r => decide (r.id = raceId)) ∘ g) = (fun r => decide (r.id = raceId)) := by
    funext x
    simp [hid x]
  rw [hp]
  cases races.find? (fun r => decide (r.id = raceId)) with
  | none => rfl
  | some x => simp [hsp x]

theorem calculateRaceWinnerProfileId_congr (fallbackName : String → ℕ)
    (db₁ db₂ : FanDB) (raceId : ℕ)
    (hp : db₁.picks = db₂.picks) (hres : db₁.results = db₂.results)
    (hpr : db₁.profiles = db₂.profiles)
    (hs : officialSpeedOfRace db₁.races raceId = officialSpeedOfRace db₂.races raceId) :
    calculateRaceWinnerProfileId fallbackName db₁ raceId =
      calculateRaceWinnerProfileId fallbackName db₂ raceId := by
  unfold calculateRaceWinnerProfileId
  rw [hp, hres, hpr, hs]

/-- C7. With no intervening data change (and the same clock reading), running
`finalizeRaceWinnerNow` twice on a non-archived race yields the same winner
both times, and the second call leaves the persisted state exactly as the
first call wrote it. -/
theorem finalizeRaceWinnerNow_idempotent (fallbackName : String → ℕ) (now : ℤ)
    (db : FanDB) (raceId : ℕ) (r : RaceRec)
    (hnd : (db.races.map (fun x => x.id)).Nodup)
    (hr : r ∈ db.races) (hid : r.id = raceId) (harch : r.isArchived = false) :
    (finalizeRaceWinnerNow fallbackName now
        (finalizeRaceWinnerNow fallbackName now db raceId).1 raceId).2 =
      (finalizeRaceWinnerNow fallbackName now db raceId).2 ∧
    (finalizeRaceWinnerNow fallbackName now
        (finalizeRaceWinnerNow fallbackName now db raceId).1 raceId).1 =
      (finalizeRaceWinnerNow fallbackName now db raceId).1 ∧
    ∃ w, (finalizeRaceWinnerNow fallbackName now db raceId).2 = Except.ok w := by
  have hGid : ∀ x : RaceRec,
      (raceGuardUpdate raceId
        (winnerUpdate (calculateRaceWinnerProfileId fallbackName db raceId) now) x).id
        = x.id := by
    intro x
    by_cases hpx : x.id = raceId ∧ x.isArchived = false
    · rw [raceGuardUpdate_pos _ _ _ hpx]
      rfl
    · rw [raceGuardUpdate_neg _ _ _ hpx]
  have hGsp : ∀ x : RaceRec,
      (raceGuardUpdate raceId
        (winnerUpdate (calculateRaceWinnerProfileId fallbackName db raceId) now)
        x).officialWinningAverageSpeed = x.officialWinningAverageSpeed := by
    intro x
    by_cases hpx : x.id = raceId ∧ x.isArchived = false
    · rw [raceGuardUpdate_pos _ _ _ hpx]
      rfl
    · rw [raceGuardUpdate_neg _ _ _ hpx]
  have hcalc : calculateRaceWinnerProfileId fallbackName
      (finalizeRaceWinnerNow fallbackName now db raceId).1 raceId =
      calculateRaceWinnerProfileId fallbackName db raceId := by
    exact calculateRaceWinnerProfileId_congr fallbackName
      (finalizeRaceWinnerNow fallbackName now db raceId).1 db raceId rfl rfl rfl
      (officialSpeedOfRace_map db.races raceId _ hGid hGsp)
  have hGG : ∀ x : RaceRec,
      raceGuardUpdate raceId
        (winnerUpdate (calculateRaceWinnerProfileId fallbackName db raceId) now)
        (raceGuardUpdate raceId
          (winnerUpdate (calculateRaceWinnerProfileId fallbackName db raceId) now) x) =
      raceGuardUpdate raceId
        (winnerUpdate (calculateRaceWinnerProfileId fallbackName db raceId) now) x := by
    intro x
    by_cases hpx : x.id = raceId ∧ x.isArchived = false
    · rw [raceGuardUpdate_pos _ _ _ hpx]
      have hpf : (winnerUpdate (calculateRaceWinnerProfileId fallbackName db raceId) now x).id
          = raceId ∧
          (winnerUpdate (calculateRaceWinnerProfileId fallbackName db raceId) now
            x).isArchived = false := ⟨hpx.1, hpx.2⟩
      rw [raceGuardUpdate_pos _ _ _ hpf]
      rfl
    · rw [raceGuardUpdate_neg _ _ _ hpx, raceGuardUpdate_neg _ _ _ hpx]
  have hmemG : raceGuardUpdate raceId
      (winnerUpdate (calculateRaceWinnerProfileId fallbackName db raceId) now) r ∈
      (finalizeRaceWinnerNow fallbackName now db raceId).1.races :=
    List.mem_map_of_mem _ hr
  have hGr_id : (raceGuardUpdate raceId
      (winnerUpdate (calculateRaceWinnerProfileId fallbackName db raceId) now) r).id
      = raceId := by
    rw [raceGuardUpdate_pos _ _ _ ⟨hid, harch⟩]
    exact hid
  have hGr_arch : (raceGuardUpdate raceId
      (winnerUpdate (calculateRaceWinnerProfileId fallbackName db raceId) now)
      r).isArchived = false := by
    rw [raceGuardUpdate_pos _ _ _ ⟨hid, harch⟩]
    exact harch
  refine ⟨?_, ?_, ⟨calculateRaceWinnerProfileId fallbackName db raceId,
    finalizeRaceWinnerNow_ok fallbackName now db raceId r hr hid harch⟩⟩
  · rw [finalizeRaceWinnerNow_ok fallbackName now db raceId r hr hid harch]
    rw [finalizeRaceWinnerNow_ok fallbackName now
      (finalizeRaceWinnerNow fallbackName now db raceId).1 raceId _ hmemG hGr_id hGr_arch]
    rw [hcalc]
  · rw [finalizeRaceWinnerNow_eq fallbackName now
      (finalizeRaceWinnerNow fallbackName now db raceId).1 raceId, hcalc]
    show ({ (finalizeRaceWinnerNow fallbackName now db raceId).1 with
      races := (db.races.map (raceGuardUpdate raceId
        (winnerUpdate (calculateRaceWinnerProfileId fallbackName db raceId) now))).map
        (raceGuardUpdate raceId
          (winnerUpdate (calculateRaceWinnerProfileId fallbackName db raceId) now)) }
      : FanDB) = (finalizeRaceWinnerNow fallbackName now db raceId).1
    have hmaps : (db.races.map (raceGuardUpdate raceId
        (winnerUpdate (calculateRaceWinnerProfileId fallbackName db raceId) now))).map
        (raceGuardUpdate raceId
          (winnerUpdate (calculateRaceWinnerProfileId fallbackName db raceId) now)) =
        db.races.map (raceGuardUpdate raceId
          (winnerUpdate (calculateRaceWinnerProfileId fallbackName db raceId) now)) := by
      rw [List.map_map]
      exact List.map_congr_left (fun x _ => hGG x)
    rw [hmaps]
    rfl

theorem pendingDueRaces_mem (now : ℤ) (db : FanDB) (x : RaceRec)
    (hx : x ∈ pendingDueRaces now db) :
    x ∈ db.races ∧ x.winnerIsManualOverride = false := by
  unfold pendingDueRaces at hx
  have hx2 := List.take_subset 100 _ hx
  rw [List.mem_insertionSort] at hx2
  have hmem := List.mem_filter.1 hx2
  refine ⟨hmem.1, ?_⟩
  have hb := hmem.2
  simp only [Bool.and_eq_true, decide_eq_true_eq] at hb
  exact hb.1.2

theorem runFinalizeList_cons (fallbackName : String → ℕ) (now : ℤ) (i : ℕ)
    (rest : List ℕ) (db : FanDB) :
    runFinalizeList fallbackName now (i :: rest) db =
      match (finalizeRaceWinnerNow fallbackName now db i).2 with
      | Except.error e => ((finalizeRaceWinnerNow fallbackName now db i).1, some e)
      | Except.ok _ =>
          runFinalizeList fallbackName now rest (finalizeRaceWinnerNow fallbackName now db i).1
      := rfl

theorem runFinalizeList_keeps (fallbackName : String → ℕ) (now : ℤ) (rid : ℕ)
    (P : RaceRec → Prop) :
    ∀ (ids : List ℕ) (db : FanDB), (∀ i ∈ ids, ¬ i = rid) →
      (∀ r' ∈ db.races, r'.id = rid → P r') →
      ∀ r' ∈ (runFinalizeList fallbackName now ids db).1.races, r'.id = rid → P r' := by
  intro ids
  induction ids with
  | nil => intro db _ hinv; exact hinv
  | cons i rest ih =>
      intro db hne hinv
      have hstep : ∀ r' ∈ (finalizeRaceWinnerNow fallbackName now db i).1.races,
          r'.id = rid → P r' := by
        intro r' hr' hr'id
        have hmem : r' ∈ (updateRaceWhere db i
            (winnerUpdate (calculateRaceWinnerProfileId fallbackName db i) now)).1.races := hr'
        rcases updateRaceWhere_mem db i _ r' hmem with ⟨x, hx, hxe⟩
        by_cases hp : x.id = i ∧ x.isArchived = false
        · exfalso
          apply hne i (List.mem_cons_self i rest)
          rw [raceGuardUpdate_pos _ _ _ hp] at hxe
          have hr'x : r'.id = x.id := by rw [hxe]; rfl
          rw [← hp.1, ← hr'x]
          exact hr'id
        · rw [raceGuardUpdate_neg _ _ _ hp] at hxe
          rw [hxe]
          exact hinv x hx (by rw [← hxe]; exact hr'id)
      rw [runFinalizeList_cons]
      cases hout : (finalizeRaceWinnerNow fallbackName now db i).2 with
      | error e => exact hstep
      | ok v => exact ih _ (fun j hj => hne j (List.mem_cons_of_mem i hj)) hstep

theorem finalizeDueRaceWinners_eq (fallbackName : String → ℕ) (now : ℤ) (db : FanDB) :
    finalizeDueRaceWinners fallbackName now db =
      (match (runFinalizeList fallbackName now
          ((pendingDueRaces now db).map (fun r => r.id)) db).2 with
       | some e =>
          ((runFinalizeList fallbackName now
            ((pendingDueRaces now db).map (fun r => r.id)) db).1, Except.error e)
       | none =>
          ((runFinalizeList fallbackName now
            ((pendingDueRaces now db).map (fun r => r.id)) db).1,
           Except.ok ((pendingDueRaces now db).length, (pendingDueRaces now db).length)))
      := rfl

theorem finalizeDueRaceWinners_fst (fallbackName : String → ℕ) (now : ℤ) (db : FanDB) :
    (finalizeDueRaceWinners fallbackName now db).1 =
      (runFinalizeList fallbackName now
        ((pendingDueRaces now db).map (fun r => r.id)) db).1 := by
  rw [finalizeDueRaceWinners_eq]
  cases (runFinalizeList fallbackName now
      ((pendingDueRaces now db).map (fun r => r.id)) db).2 with
  | none => rfl
  | some e => rfl

/-- C5. Once a race carries a manual override, no run of the due-race
finalizer ever changes that race's winner or winner source (the batch
selection excludes override races, and every conditional update is keyed to
another race id); the winner changes only through the explicit recompute,
which runs `finalizeRaceWinnerNow` at once, clearing the override and writing
the freshly computed winner. -/
theorem manual_override_winner_immune_to_finalizeDue (fallbackName : String → ℕ)
    (now : ℤ) (db : FanDB) (r : RaceRec)
    (hnd : (db.races.map (fun x => x.id)).Nodup)
    (hr : r ∈ db.races) (hov : r.winnerIsManualOverride = true) :
    (∀ r' ∈ (finalizeDueRaceWinners fallbackName now db).1.races, r'.id = r.id →
      r'.winnerProfileId = r.winnerProfileId ∧ r'.winnerSource = r.winnerSource ∧
        r'.winnerIsManualOverride = true) ∧
    (r.isArchived = false →
      ∀ r' ∈ (finalizeRaceWinnerNow fallbackName now db r.id).1.races, r'.id = r.id →
        r'.winnerIsManualOverride = false ∧
        r'.winnerProfileId = calculateRaceWinnerProfileId fallbackName db r.id) := by
  constructor
  · rw [finalizeDueRaceWinners_fst]
    apply runFinalizeList_keeps fallbackName now r.id
      (fun r' => r'.winnerProfileId = r.winnerProfileId ∧
        r'.winnerSource = r.winnerSource ∧ r'.winnerIsManualOverride = true)
    · intro i hi hieq
      rcases List.mem_map.1 hi with ⟨x, hxp, hxe⟩
      rcases pendingDueRaces_mem now db x hxp with ⟨hxr, hxov⟩
      have hxid : x.id = r.id := by rw [hxe, hieq]
      have hxeq : x = r := races_id_nodup_inj hnd x hxr r hr hxid
      rw [hxeq] at hxov
      rw [hov] at hxov
      cases hxov
    · intro r' hr' hr'id
      have hr'eq : r' = r := races_id_nodup_inj hnd r' hr' r hr (by rw [hr'id])
      rw [hr'eq]
      exact ⟨rfl, rfl, hov⟩
  · intro harch r' hr' hr'id
    have hfields := finalizeRaceWinnerNow_race_fields fallbackName now db r.id r
      hnd hr rfl harch r' hr' hr'id
    exact ⟨hfields.2.2.2.1, hfields.1⟩

/-! ## Concrete witnesses -/

theorem assignWeeklyRanks_rank_rule_witness :
    ((assignWeeklyRanks (fun r : ℤ × ℕ => r.1) (fun _ => none) (fun r => r.2)
        [((50 : ℤ), (1 : ℕ)), (40, 2), (40, 3), (30, 4)] none).get? 1 =
      some ((40, 2), 2)) ∧
    ((((40, 3), 2) : (ℤ × ℕ) × ℕ).2 = (((40, 2), 2) : (ℤ × ℕ) × ℕ).2) :=
  ⟨by decide,
   (assignWeeklyRanks_rank_rule.1 (fun r : ℤ × ℕ => r.1) (fun _ => none) (fun r => r.2)
      [((50 : ℤ), (1 : ℕ)), (40, 2), (40, 3), (30, 4)] none).2.2 1 ((40, 2), 2) ((40, 3), 2)
      (by decide) (by decide) (by decide) (by decide)⟩

/-- Concrete standings fixture: one race with one posted result (driver 7 of
group 2 scoring 3), one participant with no pick. -/
def exParticipants : List Participant := [{ id := "alice", teamName := 1 }]

def exRaces : List RaceRow := [{ id := 1, race_date := 10, official_winning_average_speed := none }]

def exResults : List ResultRow := [{ race_id := 1, driver_id := 7, points := 3 }]

def exDrivers : List DriverRow := [{ id := 7, group_number := 2 }]

theorem leagueAggregate_no_pick_scores_group_floor_witness :
    (¬ resultsForRace exResults 1 = []) ∧
    ((leagueAggregate exParticipants exRaces [] exResults exDrivers).breakdown ("alice", 1) =
      some (specGroupFloorTotal (resultsForRace exResults 1) (driverGroupById exDrivers))) :=
  ⟨by decide,
   leagueAggregate_no_pick_scores_group_floor exParticipants exRaces [] exResults exDrivers
     { id := 1, race_date := 10, official_winning_average_speed := none }
     { id := "alice", teamName := 1 }
     (by decide) (by decide) (by decide) (by decide) (by decide)⟩

theorem finalizeRaceWinnerNow_success_spec_witness :
    ((c4ExampleDB.races.map (fun x => x.id)).Nodup) ∧
    ((finalizeRaceWinnerNow (fun _ => 0) 5 c4ExampleDB 1).2 =
      Except.ok (calculateRaceWinnerProfileId (fun _ => 0) c4ExampleDB 1)) :=
  ⟨by decide,
   (finalizeRaceWinnerNow_success_spec (fun _ => 0) 5 c4ExampleDB 1
     { id := 1, isArchived := false, officialWinningAverageSpeed := none,
       winnerProfileId := none, winnerSource := none, winnerIsManualOverride := false,
       winnerAutoEligibleAt := none, winnerSetAt := none }
     (by decide) (by decide) rfl rfl).1⟩

/-- Store with one manually overridden race. -/
def c5ExampleDB : FanDB :=
  { races := [{ id := 2
                isArchived := false
                officialWinningAverageSpeed := none
                winnerProfileId := some "bob"
                winnerSource := some "manual"
                winnerIsManualOverride := true
                winnerAutoEligibleAt := none
                winnerSetAt := some 3 }]
    picks := []
    results := []
    profiles := [] }

/-- The overridden race row of `c5ExampleDB`. -/
def c5Race : RaceRec :=
  { id := 2, isArchived := false, officialWinningAverageSpeed := none,
    winnerProfileId := some "bob", winnerSource := some "manual",
    winnerIsManualOverride := true, winnerAutoEligibleAt := none, winnerSetAt := some 3 }

theorem manual_override_winner_immune_to_finalizeDue_witness :
    (c5Race ∈ (finalizeDueRaceWinners (fun _ => 0) 9 c5ExampleDB).1.races) ∧
    (c5Race.winnerProfileId = c5Race.winnerProfileId ∧
      c5Race.winnerSource = c5Race.winnerSource ∧
      c5Race.winnerIsManualOverride = true) :=
  ⟨by decide,
   (manual_override_winner_immune_to_finalizeDue (fun _ => 0) 9 c5ExampleDB c5Race
     (by decide) (by decide) rfl).1 c5Race (by decide) rfl⟩

/-- Store with one archived race. -/
def c6ExampleDB : FanDB :=
  { races := [{ id := 3
                isArchived := true
                officialWinningAverageSpeed := none
                winnerProfileId := none
                winnerSource := none
                winnerIsManualOverride := false
                winnerAutoEligibleAt := none
                winnerSetAt := none }]
    picks := []
    results := []
    profiles := [] }

theorem archived_race_schedule_and_finalize_rejected_witness :
    ((c6ExampleDB.races.map (fun x => x.id)).Nodup) ∧
    (scheduleRaceWinnerAutoCalculation 7 c6ExampleDB 3 =
      (c6ExampleDB, Except.error "Cannot schedule winner auto-calculation for an archived race.") ∧
     finalizeRaceWinnerNow (fun _ => 0) 7 c6ExampleDB 3 =
      (c6ExampleDB, Except.error "Cannot finalize winner for an archived race.")) :=
  ⟨by decide,
   archived_race_schedule_and_finalize_rejected (fun _ => 0) 7 c6ExampleDB 3
     { id := 3, isArchived := true, officialWinningAverageSpeed := none,
       winnerProfileId := none, winnerSource := none, winnerIsManualOverride := false,
       winnerAutoEligibleAt := none, winnerSetAt := none }
     (by decide) (by decide) rfl rfl⟩

theorem finalizeRaceWinnerNow_idempotent_witness :
    ((c4ExampleDB.races.map (fun x => x.id)).Nodup) ∧
    ((finalizeRaceWinnerNow (fun _ => 0) 5
        (finalizeRaceWinnerNow (fun _ => 0) 5 c4ExampleDB 1).1 1).2 =
      (finalizeRaceWinnerNow (fun _ => 0) 5 c4ExampleDB 1).2 ∧
     (finalizeRaceWinnerNow (fun _ => 0) 5
        (finalizeRaceWinnerNow (fun _ => 0) 5 c4ExampleDB 1).1 1).1 =
      (finalizeRaceWinnerNow (fun _ => 0) 5 c4ExampleDB 1).1) :=
  ⟨by decide,
   (finalizeRaceWinnerNow_idempotent (fun _ => 0) 5 c4ExampleDB 1
     { id := 1, isArchived := false, officialWinningAverageSpeed := none,
       winnerProfileId := none, winnerSource := none, winnerIsManualOverride := false,
       winnerAutoEligibleAt := none, winnerSetAt := none }
     (by decide) (by decide) rfl rfl).1,
   (finalizeRaceWinnerNow_idempotent (fun _ => 0) 5 c4ExampleDB 1
     { id := 1, isArchived := false, officialWinningAverageSpeed := none,
       winnerProfileId := none, winnerSource := none, winnerIsManualOverride := false,
       winnerAutoEligibleAt := none, winnerSetAt := none }
     (by decide) (by decide) rfl rfl).2.1⟩

theorem picksByRace_total_eq_standings_weekly_no_pick_witness :
    (¬ resultsForRace exResults 1 = []) ∧
    (picksByRaceTotalPoints
      (picksByRaceCells none true (resultPointsByDriverId (resultsForRace exResults 1))
        (minimumPointsByGroup (resultsForRace exResults 1) (driverGroupById exDrivers)))
      true =
      (leagueAggregate exParticipants exRaces [] exResults exDrivers).breakdown ("alice", 1)) :=
  ⟨by decide,
   picksByRace_total_eq_standings_weekly_no_pick exParticipants exRaces [] exResults exDrivers
     { id := 1, race_date := 10, official_winning_average_speed := none }
     { id := "alice", teamName := 1 }
     (by decide) (by decide) (by decide) (by decide) (by decide)⟩

theorem analyticsSummary_empty_means_witness :
    ((([] : List ARow).map (fun row => row.weeklyFinish)).filterMap id = []) ∧
    ((analyticsSummaryOfRaceRows []).averageFinish = none ∧
      (analyticsSummaryOfRaceRows []).lastThreeRaceAverage = none ∧
      (analyticsSummaryOfRaceRows []).momentumDelta = none ∧
      (analyticsSummaryOfRaceRows []).averageWeeklyPoints = 0) :=
  ⟨rfl,
   ⟨(analyticsSummary_empty_means []).1 rfl,
    ((analyticsSummary_empty_means []).2.2 rfl).1,
    ((analyticsSummary_empty_means []).2.2 rfl).2.1,
    ((analyticsSummary_empty_means []).2.2 rfl).2.2.2.2⟩⟩

theorem assignCompetitionRanks_tie_rule_witness :
    ((assignCompetitionRanks
        [⟨"u1", 1, 50, 20⟩, ⟨"u2", 2, 50, 20⟩, ⟨"u3", 3, 40, 10⟩]).get? 0 =
      some (⟨"u1", 1, 50, 20⟩, 1)) ∧
    (((⟨"u1", 1, 50, 20⟩, 1) : CompRow × ℕ).2 = ((⟨"u2", 2, 50, 20⟩, 1) : CompRow × ℕ).2) :=
  ⟨by decide,
   assignCompetitionRanks_tie_rule.1
     [⟨"u1", 1, 50, 20⟩, ⟨"u2", 2, 50, 20⟩, ⟨"u3", 3, 40, 10⟩] 0 1
     (⟨"u1", 1, 50, 20⟩, 1) (⟨"u2", 2, 50, 20⟩, 1)
     (by decide) (by decide) rfl rfl⟩

end Pickem
